import Mathlib

/-!
Verification development for the WebWaka core module registry
(`changerplanet/webwaka-core-registry`).

The TypeScript sources are shallowly embedded as pure Lean functions:

* `src/types.ts`            → the structures below (`Capability`, `ModuleDependency`,
                              `Manifest`, `RegisteredModule`, `TenantModuleState`, ...)
* `src/storage.ts`          → `Storage` with association-list maps mirroring the JS `Map`
                              semantics (insert-or-replace keeps the original position,
                              matching JS `Map.set` insertion-order behaviour)
* `src/tenant-control.ts`   → `TenantControl.enableModule` / `disableModule` / reads
* `src/capability-resolver.ts` → `CapResolver` operations
* `src/validator.ts`        → `ManifestValidator` (the JSON Schema file
                              `schemas/module_manifest.schema.json` is not part of the
                              source snapshot, so the schema stage is modelled from the
                              spec and the pattern documented in the CHANGELOG)
* `src/registry.ts`         → `registerModule`, `unregisterModule`, `checkCircularDependencies`
* `dist/registry.js`        → the earlier generation of the registry, embedded separately
                              (`DistReg` namespace) for `getDependencyOrder`.

Mutable registry state is threaded explicitly; a thrown JS error is an `Except.error`.
In every embedded operation the source performs all of its checks before its first
mutation, so an error result leaves the caller's state untouched exactly as in the source.
Timestamps (`new Date()`) are modelled by an explicit `now : Nat` argument.
-/

/-- Character class `[a-z]`. -/
def isLowerAlpha (c : Char) : Bool := 'a' ≤ c && c ≤ 'z'

/-- Character class `[0-9]`. -/
def isDigitCh (c : Char) : Bool := '0' ≤ c && c ≤ '9'

/-- Character class `[a-z0-9-]` used by the module-id and capability-id patterns. -/
def isLowerAlnumHyphen (c : Char) : Bool := isLowerAlpha c || isDigitCh c || c == '-'

/-- Character class `[0-9a-zA-Z-]` used by the semver prerelease/build identifiers. -/
def isAlnumHyphen (c : Char) : Bool :=
  isDigitCh c || isLowerAlpha c || ('A' ≤ c && c ≤ 'Z') || c == '-'

/-- List-level prefix test, embedding of JS `String.prototype.startsWith`. -/
def listIsPrefix : List Char → List Char → Bool
  | [], _ => true
  | _ :: _, [] => false
  | p :: ps, c :: cs => p == c && listIsPrefix ps cs

/-- Embedding of JS `String.prototype.startsWith`. -/
def strStartsWith (s pre : String) : Bool := listIsPrefix pre.data s.data

/-- Splits a character list at every occurrence of `sep`, keeping empty segments,
like JS `String.prototype.split`. -/
def splitOnCh (sep : Char) : List Char → List (List Char)
  | [] => [[]]
  | c :: rest =>
    match splitOnCh sep rest with
    | [] => [[c]]
    | g :: gs => if c == sep then [] :: g :: gs else (c :: g) :: gs

/-- The five module classes of `types.ts` (`'core' | 'suite' | 'industry' | 'ext' | 'infra'`). -/
inductive ModuleClass where
  | core | suite | industry | ext | infra
deriving DecidableEq, Repr

/-- String form of a module class, as it appears in manifests. -/
def ModuleClass.str : ModuleClass → String
  | .core => "core" | .suite => "suite" | .industry => "industry"
  | .ext => "ext" | .infra => "infra"

/-- Capability declaration (`types.ts` `Capability`). -/
structure Capability where
  id : String
  name : String
  description : String
  version : Option String
deriving DecidableEq, Repr

/-- Dependency declaration (`types.ts` `ModuleDependency`); a JS-absent `optional`
flag is falsy, so it is embedded as `Bool`. -/
structure ModuleDependency where
  moduleId : String
  versionRange : Option String
  optional : Bool
deriving DecidableEq, Repr

/-- Module manifest (`types.ts` `ModuleManifest`); the free-form `metadata` object is
not read by any embedded operation and is omitted from the record. -/
structure Manifest where
  moduleId : String
  klass : ModuleClass
  version : String
  capabilities : List Capability
  dependencies : List ModuleDependency
deriving DecidableEq, Repr

/-- Registered module (`types.ts` `RegisteredModule`): a manifest plus `registeredAt`. -/
structure RegisteredModule extends Manifest where
  registeredAt : Nat
deriving DecidableEq, Repr

/-- Per-tenant module state (`types.ts` `TenantModuleState`). -/
structure TenantModuleState where
  tenantId : String
  moduleId : String
  enabled : Bool
  updatedAt : Nat
deriving DecidableEq, Repr

/-- Association-list lookup, the embedding of JS `Map.prototype.get`. -/
def alookup {α : Type} (k : String) : List (String × α) → Option α
  | [] => none
  | (k', v) :: rest => if k' == k then some v else alookup k rest

/-- Association-list insert-or-replace, the embedding of JS `Map.prototype.set`
(replacing keeps the original insertion position, as JS `Map` does). -/
def aset {α : Type} (k : String) (v : α) : List (String × α) → List (String × α)
  | [] => [(k, v)]
  | (k', v') :: rest => if k' == k then (k, v) :: rest else (k', v') :: aset k v rest

/-- Association-list removal, the embedding of JS `Map.prototype.delete`. -/
def adel {α : Type} (k : String) : List (String × α) → List (String × α)
  | [] => []
  | (k', v') :: rest => if k' == k then rest else (k', v') :: adel k rest

/-- Storage backend state (`storage.ts` `InMemoryStorage`): two JS `Map`s, one keyed by
module id and one keyed by the composite tenant-state key. -/
structure Storage where
  modules : List (String × RegisteredModule)
  tenantStates : List (String × TenantModuleState)
deriving DecidableEq, Repr

/-- Composite key for tenant state lookup (`storage.ts` `getTenantStateKey`):
the raw string `tenantId + ":" + moduleId`. -/
def tenantStateKey (tenantId moduleId : String) : String :=
  tenantId ++ ":" ++ moduleId

/-- Embedding of `InMemoryStorage.saveModule`. -/
def Storage.saveModule (s : Storage) (m : RegisteredModule) : Storage :=
  { s with modules := aset m.moduleId m s.modules }

/-- Embedding of `InMemoryStorage.getModule`. -/
def Storage.getModule (s : Storage) (moduleId : String) : Option RegisteredModule :=
  alookup moduleId s.modules

/-- Embedding of `InMemoryStorage.getAllModules` (JS `Map` value iteration order =
insertion order = association-list order). -/
def Storage.getAllModules (s : Storage) : List RegisteredModule :=
  s.modules.map (·.2)

/-- Embedding of `InMemoryStorage.deleteModule`; JS `Map.delete` returns whether
the key was present. -/
def Storage.deleteModule (s : Storage) (moduleId : String) : Bool × Storage :=
  ((alookup moduleId s.modules).isSome, { s with modules := adel moduleId s.modules })

/-- Embedding of `InMemoryStorage.saveTenantState`. -/
def Storage.saveTenantState (s : Storage) (st : TenantModuleState) : Storage :=
  { s with tenantStates := aset (tenantStateKey st.tenantId st.moduleId) st s.tenantStates }

/-- Embedding of `InMemoryStorage.getTenantState`. -/
def Storage.getTenantState (s : Storage) (tenantId moduleId : String) :
    Option TenantModuleState :=
  alookup (tenantStateKey tenantId moduleId) s.tenantStates

/-- Embedding of `InMemoryStorage.getTenantStates`: every stored state whose composite
key starts with `tenantId + ":"`, in map iteration order. -/
def Storage.getTenantStates (s : Storage) (tenantId : String) : List TenantModuleState :=
  (s.tenantStates.filter (fun kv => strStartsWith kv.1 (tenantId ++ ":"))).map (·.2)

/-- Error codes of `tenant-control.ts` `TenantControlError`; the variants that carry
`relatedModules` keep that list. -/
inductive TenantErr where
  | moduleNotFound (moduleId tenantId : String)
  | alreadyEnabled (moduleId tenantId : String)
  | alreadyDisabled (moduleId tenantId : String)
  | dependencyMissing (moduleId tenantId : String) (relatedModules : List String)
  | dependentExists (moduleId tenantId : String) (relatedModules : List String)
deriving DecidableEq, Repr

/-- Truthiness of `state?.enabled` for an optional tenant state. -/
def stEnabled (st : Option TenantModuleState) : Bool :=
  match st with
  | none => false
  | some t => t.enabled

/-- Embedding of `TenantControl.enableModule` (`tenant-control.ts` lines 41–90).
The missing-dependency list is accumulated in declaration order, exactly as the
source loop does. -/
def enableModule (s : Storage) (tenantId moduleId : String) (now : Nat) :
    Except TenantErr (TenantModuleState × Storage) :=
  match s.getModule moduleId with
  | none => .error (.moduleNotFound moduleId tenantId)
  | some m =>
    if stEnabled (s.getTenantState tenantId moduleId) then
      .error (.alreadyEnabled moduleId tenantId)
    else
      let missingDeps :=
        (m.dependencies.filter
          (fun d => !d.optional && !stEnabled (s.getTenantState tenantId d.moduleId))).map
          (·.moduleId)
      if missingDeps.isEmpty then
        let newState : TenantModuleState :=
          { tenantId := tenantId, moduleId := moduleId, enabled := true, updatedAt := now }
        .ok (newState, s.saveTenantState newState)
      else
        .error (.dependencyMissing moduleId tenantId missingDeps)

/-- Embedding of `TenantControl.disableModule` (`tenant-control.ts` lines 96–154).
The enabled-dependents scan follows `getAllModules()` order, exactly as the source
loop does. -/
def disableModule (s : Storage) (tenantId moduleId : String) (now : Nat) :
    Except TenantErr (TenantModuleState × Storage) :=
  match s.getModule moduleId with
  | none => .error (.moduleNotFound moduleId tenantId)
  | some _ =>
    if !stEnabled (s.getTenantState tenantId moduleId) then
      .error (.alreadyDisabled moduleId tenantId)
    else
      let enabledDependents :=
        (s.getAllModules.filter (fun other =>
          other.moduleId != moduleId &&
          other.dependencies.any (fun d => d.moduleId == moduleId && !d.optional) &&
          stEnabled (s.getTenantState tenantId other.moduleId))).map (·.moduleId)
      if enabledDependents.isEmpty then
        let newState : TenantModuleState :=
          { tenantId := tenantId, moduleId := moduleId, enabled := false, updatedAt := now }
        .ok (newState, s.saveTenantState newState)
      else
        .error (.dependentExists moduleId tenantId enabledDependents)

/-- Embedding of `TenantControl.isEnabled`. -/
def isEnabled (s : Storage) (tenantId moduleId : String) : Bool :=
  stEnabled (s.getTenantState tenantId moduleId)

/-- Embedding of `TenantControl.getEnabledModules`. -/
def getEnabledModules (s : Storage) (tenantId : String) : List String :=
  ((s.getTenantStates tenantId).filter (·.enabled)).map (·.moduleId)

/-- The five class segments of the module-id pattern, in the order of the regex
alternation `(core|suite|industry|ext|infra)` of `validator.ts`. -/
def moduleClassStrings : List String := ["core", "suite", "industry", "ext", "infra"]

/-- Embedding of `ManifestValidator.isValidModuleId`, the regex
`^webwaka-(core|suite|industry|ext|infra)-[a-z0-9-]+$` (also the CHANGELOG's schema
pattern): prefix `webwaka-<class>-` followed by a non-empty `[a-z0-9-]` slug. -/
def isValidModuleId (s : String) : Bool :=
  moduleClassStrings.any (fun cl =>
    let pre := "webwaka-" ++ cl ++ "-"
    strStartsWith s pre &&
      (let rest := s.data.drop pre.data.length
       !rest.isEmpty && rest.all isLowerAlnumHyphen))

/-- One segment of the capability-id pattern: `[a-z][a-z0-9-]*`. -/
def capSeg : List Char → Bool
  | [] => false
  | c :: rest => isLowerAlpha c && rest.all isLowerAlnumHyphen

/-- Embedding of `ManifestValidator.isValidCapabilityId`, the regex
`^[a-z][a-z0-9-]*:[a-z][a-z0-9-]*$` (namespace:name).  The segment character
classes exclude `':'`, so splitting at the first colon is exact. -/
def isValidCapabilityId (s : String) : Bool :=
  let (seg1, rest) := s.data.span (fun c => c ≠ ':')
  match rest with
  | [] => false
  | _ :: seg2 => capSeg seg1 && capSeg seg2

/-- Numeric identifier with no leading zero: the regex piece `0|[1-9]\d*`. -/
def numNoLeadZero : List Char → Bool
  | [] => false
  | c :: rest => isDigitCh c && rest.all isDigitCh && !(c == '0' && !rest.isEmpty)

/-- Prerelease identifier: `0|[1-9]\d*|\d*[a-zA-Z-][0-9a-zA-Z-]*`, which is exactly
a non-empty `[0-9a-zA-Z-]` word that, when purely numeric, has no leading zero. -/
def preReleaseId (l : List Char) : Bool :=
  !l.isEmpty && l.all isAlnumHyphen && (!(l.all isDigitCh) || numNoLeadZero l)

/-- Build identifier: `[0-9a-zA-Z-]+`. -/
def buildId (l : List Char) : Bool := !l.isEmpty && l.all isAlnumHyphen

/-- Embedding of `ManifestValidator.isValidSemver` (the full semver regex of
`validator.ts`): `major.minor.patch`, an optional `-prerelease` of dot-separated
prerelease identifiers and an optional `+build` of dot-separated build identifiers.
The version core contains neither `'-'` nor `'+'` and prerelease identifiers contain
no `'+'`, so splitting at the first occurrences is exact. -/
def isValidSemver (s : String) : Bool :=
  let (corePre, plusRest) := s.data.span (fun c => c ≠ '+')
  let buildOk :=
    match plusRest with
    | [] => true
    | _ :: b => (splitOnCh '.' b).all buildId
  let (core, dashRest) := corePre.span (fun c => c ≠ '-')
  let preOk :=
    match dashRest with
    | [] => true
    | _ :: p => (splitOnCh '.' p).all preReleaseId
  let coreOk :=
    match splitOnCh '.' core with
    | [a, b, c] => numNoLeadZero a && numNoLeadZero b && numNoLeadZero c
    | _ => false
  coreOk && preOk && buildOk


/-- Validation error record (`types.ts` `ValidationError`). -/
structure ValidationError where
  path : String
  message : String
  code : String
deriving DecidableEq, Repr

/-- Validation result (`types.ts` `ValidationResult`). -/
structure ValidationResult where
  valid : Bool
  errors : List ValidationError
deriving DecidableEq, Repr

/-- State of one JSON field inside a raw candidate document: absent, present with
the wrong JSON type, or present with the expected type. -/
inductive RField (α : Type) where
  | missing
  | badType
  | ok (val : α)
deriving DecidableEq, Repr

/-- Value of a field assuming it was present and well-typed. -/
def RField.getD {α : Type} (f : RField α) (d : α) : α :=
  match f with
  | .ok v => v
  | _ => d

/-- Raw capability entry of a candidate document. -/
structure RawCapability where
  id : RField String
  name : RField String
  description : RField String
  version : RField String
  extraFields : List String
deriving DecidableEq, Repr

/-- Raw dependency entry of a candidate document. -/
structure RawDependency where
  moduleId : RField String
  versionRange : RField String
  optionalFlag : RField Bool
  extraFields : List String
deriving DecidableEq, Repr

/-- Raw manifest object of a candidate document. -/
structure RawManifest where
  moduleId : RField String
  klass : RField String
  version : RField String
  capabilities : RField (List RawCapability)
  dependencies : RField (List RawDependency)
  metadata : RField Unit
  extraFields : List String
deriving DecidableEq, Repr

/-- Arbitrary candidate input to `validate` (`unknown` in TypeScript): either not a
JSON object at all, or an object described field by field. -/
inductive RawValue where
  | notObject
  | obj (m : RawManifest)
deriving DecidableEq, Repr

/-- Schema error for a required field: absent or ill-typed, mapped to the Ajv-derived
codes `SCHEMA_REQUIRED` / `SCHEMA_TYPE` exactly as `validate` maps Ajv keywords. -/
def requiredFieldErrors {α : Type} (path : String) (f : RField α) : List ValidationError :=
  match f with
  | .missing => [⟨path, "required field missing", "SCHEMA_REQUIRED"⟩]
  | .badType => [⟨path, "wrong type", "SCHEMA_TYPE"⟩]
  | .ok _ => []

/-- Schema error for an optional field: only an ill-typed present value is reported. -/
def optionalFieldErrors {α : Type} (path : String) (f : RField α) : List ValidationError :=
  match f with
  | .badType => [⟨path, "wrong type", "SCHEMA_TYPE"⟩]
  | _ => []

/-- Pattern error against a string field that is present and well typed. -/
def patternErrors (path : String) (f : RField String) (pat : String → Bool) :
    List ValidationError :=
  match f with
  | .ok v => if pat v then [] else [⟨path, "pattern mismatch", "SCHEMA_PATTERN"⟩]
  | _ => []

/-- Closed-schema errors for unrecognized fields (`additionalProperties: false`). -/
def extraFieldErrors (path : String) (extra : List String) : List ValidationError :=
  extra.map (fun f => ⟨path, "unrecognized field " ++ f, "SCHEMA_ADDITIONALPROPERTIES"⟩)

/-- Schema errors of one capability entry. -/
def capabilitySchemaErrors (c : RawCapability) : List ValidationError :=
  requiredFieldErrors "/capabilities/id" c.id ++
  patternErrors "/capabilities/id" c.id isValidCapabilityId ++
  requiredFieldErrors "/capabilities/name" c.name ++
  requiredFieldErrors "/capabilities/description" c.description ++
  optionalFieldErrors "/capabilities/version" c.version ++
  extraFieldErrors "/capabilities" c.extraFields

/-- Schema errors of one dependency entry. -/
def dependencySchemaErrors (d : RawDependency) : List ValidationError :=
  requiredFieldErrors "/dependencies/moduleId" d.moduleId ++
  optionalFieldErrors "/dependencies/versionRange" d.versionRange ++
  optionalFieldErrors "/dependencies/optional" d.optionalFlag ++
  extraFieldErrors "/dependencies" d.extraFields

/-- Whether a class string is one of the five allowed classes. -/
def isAllowedClass (s : String) : Bool := moduleClassStrings.any (fun cl => cl == s)

/-- Enum error for the class field when present and typed. -/
def classEnumErrors (f : RField String) : List ValidationError :=
  match f with
  | .ok v => if isAllowedClass v then [] else [⟨"/class", "not an allowed class", "SCHEMA_ENUM"⟩]
  | _ => []

/-- Schema errors of the capability list when present and typed. -/
def capListErrors (f : RField (List RawCapability)) : List ValidationError :=
  match f with
  | .ok caps => caps.flatMap capabilitySchemaErrors
  | _ => []

/-- Schema errors of the dependency list when present and typed. -/
def depListErrors (f : RField (List RawDependency)) : List ValidationError :=
  match f with
  | .ok deps => deps.flatMap dependencySchemaErrors
  | _ => []

/-- Modelled from the spec: the JSON Schema stage of `ManifestValidator.validate`.
The schema file `schemas/module_manifest.schema.json` is not part of the source
snapshot; this stage follows the spec's structural rules (required fields present and
correctly typed, closed schema, module-id pattern — the CHANGELOG documents it as
`^webwaka-(core|suite|industry|ext|infra)-[a-z0-9-]+$` —, class enum, semver version,
capability-id format) and, like Ajv with `allErrors: true`, reports every schema
violation of the document at once. -/
def schemaErrors (v : RawValue) : List ValidationError :=
  match v with
  | .notObject => [⟨"/", "manifest must be an object", "SCHEMA_TYPE"⟩]
  | .obj m =>
    requiredFieldErrors "/moduleId" m.moduleId ++
    patternErrors "/moduleId" m.moduleId isValidModuleId ++
    requiredFieldErrors "/class" m.klass ++
    classEnumErrors m.klass ++
    requiredFieldErrors "/version" m.version ++
    patternErrors "/version" m.version isValidSemver ++
    requiredFieldErrors "/capabilities" m.capabilities ++
    capListErrors m.capabilities ++
    requiredFieldErrors "/dependencies" m.dependencies ++
    depListErrors m.dependencies ++
    requiredFieldErrors "/metadata" m.metadata ++
    extraFieldErrors "/" m.extraFields

/-- Parses a class string into the `ModuleClass` union. -/
def parseClass (s : String) : Option ModuleClass :=
  if s == "core" then some .core
  else if s == "suite" then some .suite
  else if s == "industry" then some .industry
  else if s == "ext" then some .ext
  else if s == "infra" then some .infra
  else none

/-- Extraction of a typed manifest from a raw document that passed the schema stage
(the TypeScript cast `manifest as ModuleManifest`); defaults are irrelevant because
`validate` only extracts when the schema stage produced no errors. -/
def extractManifest (m : RawManifest) : Manifest :=
  { moduleId := m.moduleId.getD ""
    klass := (parseClass (m.klass.getD "core")).getD .core
    version := m.version.getD ""
    capabilities := (m.capabilities.getD []).map (fun c =>
      { id := c.id.getD "", name := c.name.getD "", description := c.description.getD ""
        version := match c.version with | .ok v => some v | _ => none })
    dependencies := (m.dependencies.getD []).map (fun d =>
      { moduleId := d.moduleId.getD ""
        versionRange := match d.versionRange with | .ok v => some v | _ => none
        optional := d.optionalFlag.getD false }) }

/-- Duplicate scan used by the duplicate-capability and duplicate-dependency business
rules: one error per repeated occurrence, in document order, exactly as the source
loops with their `Set` accumulators do. -/
def dupScan (mk : String → ValidationError) : List String → List String → List ValidationError
  | _, [] => []
  | seen, x :: rest =>
    (if seen.contains x then [mk x] else []) ++ dupScan mk (x :: seen) rest

/-- Class/prefix business rule error. -/
def classPrefixErrors (m : Manifest) : List ValidationError :=
  let expectedPrefix := "webwaka-" ++ m.klass.str ++ "-"
  if strStartsWith m.moduleId expectedPrefix then []
  else [⟨"/moduleId", "moduleId must start with " ++ expectedPrefix, "CLASS_PREFIX_MISMATCH"⟩]

/-- Self-dependency errors, one per offending declaration as in the source loop. -/
def selfDepErrors (m : Manifest) : List ValidationError :=
  (m.dependencies.filter (fun d => d.moduleId == m.moduleId)).map
    (fun _ => ⟨"/dependencies", "Module cannot depend on itself", "SELF_DEPENDENCY"⟩)

/-- Embedding of `ManifestValidator.validateBusinessRules` (`validator.ts` lines 97–144):
class/prefix agreement, duplicate capability ids, self-dependency, duplicate
dependency targets — errors pushed in exactly that order. -/
def businessRuleErrors (m : Manifest) : List ValidationError :=
  classPrefixErrors m ++
  dupScan (fun id => ⟨"/capabilities", "Duplicate capability ID: " ++ id, "DUPLICATE_CAPABILITY"⟩)
    [] (m.capabilities.map (·.id)) ++
  selfDepErrors m ++
  dupScan (fun id => ⟨"/dependencies", "Duplicate dependency: " ++ id, "DUPLICATE_DEPENDENCY"⟩)
    [] (m.dependencies.map (·.moduleId))

/-- Embedding of `ManifestValidator.validate` (`validator.ts` lines 62–92): the schema
stage runs first and, when it reports any error, `validate` returns early with only
those errors; the business-rule stage runs only on a schema-valid document. -/
def validate (v : RawValue) : ValidationResult :=
  match schemaErrors v with
  | [] =>
    match v with
    | .obj m =>
      let errors := businessRuleErrors (extractManifest m)
      { valid := errors.isEmpty, errors := errors }
    | .notObject => { valid := false, errors := [] }
  | errs => { valid := false, errors := errs }

/-- Image of a typed manifest as a raw document: every field present and well typed,
no unrecognized fields.  `registerModule` receives a compile-time-typed
`ModuleManifest`, so its call to `validate` goes through this injection. -/
def Manifest.toRaw (m : Manifest) : RawValue :=
  .obj
    { moduleId := .ok m.moduleId
      klass := .ok m.klass.str
      version := .ok m.version
      capabilities := .ok (m.capabilities.map (fun c =>
        { id := .ok c.id, name := .ok c.name, description := .ok c.description
          version := match c.version with | some v => .ok v | none => .missing
          extraFields := [] }))
      dependencies := .ok (m.dependencies.map (fun d =>
        { moduleId := .ok d.moduleId
          versionRange := match d.versionRange with | some v => .ok v | none => .missing
          optionalFlag := .ok d.optional
          extraFields := [] }))
      metadata := .ok ()
      extraFields := [] }

/-- Embedding of `ModuleRegistry.validateManifest` for a typed manifest. -/
def validateManifest (m : Manifest) : ValidationResult :=
  validate m.toRaw

/-- Error codes of `capability-resolver.ts` `CapabilityResolutionError`. -/
inductive CapErr where
  | duplicate (capabilityId : String) (conflictingModules : List String)
  | notFound (capabilityId : String)
  | invalidFormat (capabilityId : String)
deriving DecidableEq, Repr

/-- Capability resolution result (`types.ts` `CapabilityResolution`). -/
structure CapabilityResolution where
  capability : Capability
  module : RegisteredModule
deriving DecidableEq, Repr

/-- Resolver state (`capability-resolver.ts` `CapabilityResolver`): the capability →
(capability, owning module) map and the per-module ownership tracking map.  The JS
tracking value is a `Set` built from the id list; deletion only iterates it, so a
plain list with possible repeats has identical behaviour. -/
structure CapResolver where
  capabilityMap : List (String × (Capability × RegisteredModule))
  moduleCapabilities : List (String × List String)
deriving DecidableEq, Repr

/-- Embedding of `CapabilityResolver.registerCapabilities` (two-phase commit,
`capability-resolver.ts` lines 43–67): the first pass fails on the first capability
already bound to a different module; only then does the second pass bind every id. -/
def registerCapabilities (r : CapResolver) (m : RegisteredModule) :
    Except CapErr CapResolver :=
  match m.capabilities.find? (fun c =>
      match alookup c.id r.capabilityMap with
      | some (_, owner) => owner.moduleId != m.moduleId
      | none => false) with
  | some c =>
    let ownerId :=
      match alookup c.id r.capabilityMap with
      | some (_, owner) => owner.moduleId
      | none => ""
    .error (.duplicate c.id [ownerId, m.moduleId])
  | none =>
    .ok { capabilityMap := m.capabilities.foldl (fun acc c => aset c.id (c, m) acc)
            r.capabilityMap
          moduleCapabilities := aset m.moduleId (m.capabilities.map (·.id))
            r.moduleCapabilities }

/-- Embedding of `CapabilityResolver.unregisterCapabilities` (lines 72–80): deletes
exactly the bindings tracked for the module, then drops the tracking entry. -/
def unregisterCapabilities (r : CapResolver) (moduleId : String) : CapResolver :=
  match alookup moduleId r.moduleCapabilities with
  | none => r
  | some caps =>
    { capabilityMap := caps.foldl (fun acc c => adel c acc) r.capabilityMap
      moduleCapabilities := adel moduleId r.moduleCapabilities }

/-- Embedding of `CapabilityResolver.resolve`: format check strictly before lookup. -/
def resolveCapability (r : CapResolver) (capabilityId : String) :
    Except CapErr CapabilityResolution :=
  if !isValidCapabilityId capabilityId then .error (.invalidFormat capabilityId)
  else
    match alookup capabilityId r.capabilityMap with
    | none => .error (.notFound capabilityId)
    | some (c, m) => .ok ⟨c, m⟩

/-- Embedding of `CapabilityResolver.hasCapability`. -/
def hasCapability (r : CapResolver) (capabilityId : String) : Bool :=
  (alookup capabilityId r.capabilityMap).isSome

/-- Embedding of `CapabilityResolver.checkForDuplicates`: the ids of the candidate
capabilities already bound to a module other than `excludeModuleId` (with no exclude
id, any existing binding conflicts, since a JS string never equals `undefined`). -/
def checkForDuplicates (r : CapResolver) (capabilities : List Capability)
    (excludeModuleId : Option String) : List String :=
  (capabilities.filter (fun c =>
    match alookup c.id r.capabilityMap with
    | some (_, owner) => some owner.moduleId ≠ excludeModuleId
    | none => false)).map (·.id)

/-- Error codes of `registry.ts` `RegistryError`; a `CapabilityResolutionError`
escaping `registerCapabilities` propagates as `capabilityError`. -/
inductive RegErr where
  | validationFailed (message : String)
  | alreadyRegistered (moduleId : String)
  | capabilityConflict (conflicts : List String)
  | circularDependency (path : List String)
  | capabilityError (e : CapErr)
deriving DecidableEq, Repr

/-- Full registry state (`registry.ts` `ModuleRegistry`): storage plus resolver. -/
structure RegistryState where
  storage : Storage
  resolver : CapResolver
deriving DecidableEq, Repr

/-- Dependency loop of `ModuleRegistry.checkCircularDependencies` (`registry.ts`
lines 247-255), parameterized by the recursive step `rec` applied to each registered
dependency target: unregistered targets are skipped, the first branch reporting a
cycle wins, as in the source loop. -/
def checkDepsF (store : List (String × RegisteredModule))
    (rec : RegisteredModule → List String → List String → Option (List String)) :
    List ModuleDependency → List String → List String → Option (List String)
  | [], _, _ => none
  | d :: rest, visited, currentPath =>
    match alookup d.moduleId store with
    | none => checkDepsF store rec rest visited currentPath
    | some depMod =>
      match rec depMod visited currentPath with
      | some p => some p
      | none => checkDepsF store rec rest visited currentPath

/-- Embedding of `ModuleRegistry.checkCircularDependencies` (`registry.ts` lines
234-258): appends the current id to the path, reports a cycle if the id is already
in the per-branch `visited` set, otherwise recurses into every registered dependency
target with a copied visited set.  The source recursion has no explicit bound; here
a `fuel` counter makes the recursion structural, and the fuel chosen by
`checkCircularDependencies` is provably never exhausted (`checkCircF_fuel_irrel`
below), since every recursion level below the candidate enters a distinct registered
module. -/
def checkCircF (store : List (String × RegisteredModule)) :
    Nat → String → List ModuleDependency → List String → List String →
      Option (List String)
  | 0, _, _, _, _ => none
  | fuel + 1, id, deps, visited, path =>
    let currentPath := path ++ [id]
    if visited.contains id then some currentPath
    else
      checkDepsF store
        (fun dm v p => checkCircF store fuel dm.moduleId dm.dependencies v p)
        deps (id :: visited) currentPath

/-- Embedding of `ModuleRegistry.checkCircularDependencies` (`registry.ts` lines
234–258) with the source's initial
arguments `visited = {}`, `path = []`; the fuel `|modules| + 2` covers the deepest
possible recursion (the candidate level plus one level per distinct registered
module plus the revisit level). -/
def checkCircularDependencies (s : Storage) (m : Manifest) : Option (List String) :=
  checkCircF s.modules (s.modules.length + 2) m.moduleId m.dependencies [] []

/-- Embedding of `ModuleRegistry.registerModule` (`registry.ts` lines 91–153):
validation, duplicate-registration check, capability-conflict check, dependency-id
format check, circular-dependency check, then the atomic commit (capability bindings
plus module store). -/
def registerModule (s : RegistryState) (m : Manifest) (now : Nat) :
    Except RegErr (RegisteredModule × RegistryState) :=
  let validation := validateManifest m
  if !validation.valid then
    .error (.validationFailed
      (String.intercalate "; " (validation.errors.map (·.message))))
  else
    match s.storage.getModule m.moduleId with
    | some _ => .error (.alreadyRegistered m.moduleId)
    | none =>
      let conflicts := checkForDuplicates s.resolver m.capabilities none
      if !conflicts.isEmpty then .error (.capabilityConflict conflicts)
      else
        match m.dependencies.find? (fun d => !isValidModuleId d.moduleId) with
        | some d =>
          .error (.validationFailed ("Invalid dependency moduleId format: " ++ d.moduleId))
        | none =>
          match checkCircularDependencies s.storage m with
          | some p => .error (.circularDependency p)
          | none =>
            let reg : RegisteredModule := { toManifest := m, registeredAt := now }
            match registerCapabilities s.resolver reg with
            | .error e => .error (.capabilityError e)
            | .ok r' => .ok (reg, { storage := s.storage.saveModule reg, resolver := r' })

/-- Embedding of `ModuleRegistry.unregisterModule` (`registry.ts` lines 218–229):
returns `false` for an unknown module; otherwise removes the capability bindings and
deletes the stored module. -/
def unregisterModule (s : RegistryState) (moduleId : String) : Bool × RegistryState :=
  match s.storage.getModule moduleId with
  | none => (false, s)
  | some _ =>
    let r' := unregisterCapabilities s.resolver moduleId
    let (deleted, st') := s.storage.deleteModule moduleId
    (deleted, { storage := st', resolver := r' })

/-- Empty registry state (a fresh `ModuleRegistry` with `InMemoryStorage`). -/
def emptyRegistry : RegistryState :=
  { storage := { modules := [], tenantStates := [] }
    resolver := { capabilityMap := [], moduleCapabilities := [] } }

/-- Whether a `registerModule` attempt succeeded. -/
def regOk (e : Except RegErr (RegisteredModule × RegistryState)) : Bool :=
  match e with
  | .ok _ => true
  | .error _ => false

/-- Registry state after a `registerModule` attempt (`d` if it failed). -/
def regStateD (e : Except RegErr (RegisteredModule × RegistryState))
    (d : RegistryState) : RegistryState :=
  match e with
  | .ok (_, s) => s
  | .error _ => d

/-- Whether a tenant operation succeeded. -/
def tenOk (e : Except TenantErr (TenantModuleState × Storage)) : Bool :=
  match e with
  | .ok _ => true
  | .error _ => false

/-- Storage after a tenant operation (`d` if it failed). -/
def tenStateD (e : Except TenantErr (TenantModuleState × Storage)) (d : Storage) : Storage :=
  match e with
  | .ok (_, s) => s
  | .error _ => d

/-- Concrete fixture: a dependency-free module with one capability. -/
def mHello : Manifest :=
  { moduleId := "webwaka-core-hello", klass := .core, version := "1.0.0"
    capabilities := [⟨"hello:greet", "Greeting", "Greets", none⟩], dependencies := [] }

/-- Concrete fixture: module `b` declaring a required dependency on module `a`. -/
def mB : Manifest :=
  { moduleId := "webwaka-core-b", klass := .core, version := "1.0.0"
    capabilities := [], dependencies := [⟨"webwaka-core-a", none, false⟩] }

/-- Concrete fixture: module `a` declaring a required dependency on module `b`. -/
def mA : Manifest :=
  { moduleId := "webwaka-core-a", klass := .core, version := "1.0.0"
    capabilities := [], dependencies := [⟨"webwaka-core-b", none, false⟩] }

/-- Concrete fixture: module `c` declaring an optional dependency on module `a`. -/
def mC : Manifest :=
  { moduleId := "webwaka-core-c", klass := .core, version := "1.0.0"
    capabilities := [], dependencies := [⟨"webwaka-core-a", none, true⟩] }

/-- Registry state after registering `mB` into an empty registry. -/
def s1B : RegistryState := regStateD (registerModule emptyRegistry mB 0) emptyRegistry

/-- Registry state after additionally registering `mA` (its dependency target `mB`
was registered first, `mB`'s own target only afterwards). -/
def s2AB : RegistryState := regStateD (registerModule s1B mA 1) emptyRegistry

/-- Registry state after registering `mHello` into an empty registry. -/
def sHelloR : RegistryState := regStateD (registerModule emptyRegistry mHello 0) emptyRegistry

/-- Storage after enabling `mHello` for the tenant id `"acme:prod"`. -/
def sHelloEn : Storage :=
  tenStateD (enableModule sHelloR.storage "acme:prod" "webwaka-core-hello" 5) sHelloR.storage

/-- Edge of the restricted dependency graph of the spec's invariant: `a` is registered,
declares `b` as a dependency, and `b` is itself registered. -/
def restrictedDepEdge (s : Storage) (a b : String) : Bool :=
  (match alookup a s.modules with
   | some r => r.dependencies.any (fun d => d.moduleId == b)
   | none => false) &&
  (alookup b s.modules).isSome

/-- Chain of restricted dependency edges along consecutive list elements. -/
def depChainB (s : Storage) : List String → Bool
  | [] => true
  | [_] => true
  | a :: b :: rest => restrictedDepEdge s a b && depChainB s (b :: rest)

/-- Whether the non-empty id list `l` forms a cycle in the restricted dependency
graph (consecutive edges plus the wrap-around edge). -/
def isDepCycleList (s : Storage) (l : List String) : Bool :=
  match l with
  | [] => false
  | x :: rest => depChainB s (x :: rest ++ [x])

/-- The restricted dependency graph contains a cycle. -/
def HasDepCycle (s : Storage) : Prop :=
  ∃ l, isDepCycleList s l = true

/-- All declared dependency targets of a registered module, in declaration order. -/
def depIdsAll (r : RegisteredModule) : List String :=
  r.dependencies.map (·.moduleId)

/-- Non-optional declared dependency targets of a registered module. -/
def depIdsNonOpt (r : RegisteredModule) : List String :=
  (r.dependencies.filter (fun d => !d.optional)).map (·.moduleId)

/-- Walk through registered modules: every listed id is registered and each next id
is drawn from `f` of the previous id's record. -/
def walkOkB (s : Storage) (f : RegisteredModule → List String) : List String → Bool
  | [] => true
  | [x] => (alookup x s.modules).isSome
  | x :: y :: rest =>
    match alookup x s.modules with
    | none => false
    | some r => (f r).contains y && walkOkB s f (y :: rest)

/-- A cyclic walk for a candidate manifest: starting from one of the candidate's
dependency targets selected by `g`, walking registered modules along `f`-edges, the
last id revisits the candidate id or an earlier id of the walk.  With `f = depIdsAll`
and `g` the full target list this is what `checkCircularDependencies` detects; the
claim's wording corresponds to `f = depIdsNonOpt` over non-optional targets only. -/
def CandCycleWalk (s : Storage) (m : Manifest) (f : RegisteredModule → List String)
    (g : List String) : Prop :=
  ∃ w : List String, w ≠ [] ∧ w.head? ∈ g.map some ∧ walkOkB s f w = true ∧
    ∃ z, w.getLast? = some z ∧ z ∈ m.moduleId :: w.dropLast

/-- Non-optional dependencies of `m` whose tenant state for `t` is not enabled, in
declaration order — the set DEPENDENCY_MISSING carries. -/
def missingDepsOf (s : Storage) (t : String) (m : RegisteredModule) : List String :=
  (m.dependencies.filter
    (fun d => !d.optional && !stEnabled (s.getTenantState t d.moduleId))).map (·.moduleId)

/-- Other registered modules that list `m` as a non-optional dependency and are
enabled for `t`, in store order — the set DEPENDENT_EXISTS carries. -/
def enabledDependentsOf (s : Storage) (t m : String) : List String :=
  (s.getAllModules.filter (fun other =>
    other.moduleId != m &&
    other.dependencies.any (fun d => d.moduleId == m && !d.optional) &&
    stEnabled (s.getTenantState t other.moduleId))).map (·.moduleId)

/-- The stored record of the registered `mHello` fixture. -/
def rHello : RegisteredModule := { toManifest := mHello, registeredAt := 0 }

/-- Storage with `mHello` registered and enabled for tenant `"demo"`. -/
def sHelloDemo : Storage :=
  tenStateD (enableModule sHelloR.storage "demo" "webwaka-core-hello" 7) sHelloR.storage

/-- The capability declared by the `mHello` fixture. -/
def capHello : Capability := ⟨"hello:greet", "Greeting", "Greets", none⟩

/-- Concrete fixture: a distinct module declaring the same capability id as `mHello`. -/
def mClash : Manifest :=
  { moduleId := "webwaka-core-clash", klass := .core, version := "2.0.0"
    capabilities := [⟨"hello:greet", "Other greeting", "Clashes", none⟩]
    dependencies := [] }

/-- A required field is present and well typed. -/
def rfOk {α : Type} : RField α → Bool
  | .ok _ => true
  | _ => false

/-- An optional field is absent or well typed. -/
def rfOptOk {α : Type} : RField α → Bool
  | .badType => false
  | _ => true

/-- Duplicate-freedom of a list relative to already-seen ids, the rule tested by the
duplicate scans of the validator. -/
def dupFreeB (seen : List String) : List String → Bool
  | [] => true
  | x :: rest => !seen.contains x && dupFreeB (x :: seen) rest

/-- Duplicate-freedom of an id list. -/
def nodupB (l : List String) : Bool := dupFreeB [] l

/-- Structural rules of one capability entry, stated as one conjunction. -/
def capabilityRulesB (c : RawCapability) : Bool :=
  rfOk c.id &&
  (match c.id with | .ok v => isValidCapabilityId v | _ => true) &&
  rfOk c.name && rfOk c.description && rfOptOk c.version && c.extraFields.isEmpty

/-- Structural rules of one dependency entry, stated as one conjunction. -/
def dependencyRulesB (d : RawDependency) : Bool :=
  rfOk d.moduleId && rfOptOk d.versionRange && rfOptOk d.optionalFlag &&
  d.extraFields.isEmpty

/-- Business rules of a typed manifest, stated as one conjunction: class/prefix
agreement, no duplicate capability id, no self-dependency, no duplicate dependency. -/
def businessRulesB (m : Manifest) : Bool :=
  strStartsWith m.moduleId ("webwaka-" ++ m.klass.str ++ "-") &&
  nodupB (m.capabilities.map (·.id)) &&
  m.dependencies.all (fun d => d.moduleId != m.moduleId) &&
  nodupB (m.dependencies.map (·.moduleId))

/-- Structural (schema) rules of a candidate document, stated as one conjunction
following the spec's bullet list, independent of the staged error pipeline. -/
def schemaRulesB (v : RawValue) : Bool :=
  match v with
  | .notObject => false
  | .obj m =>
    rfOk m.moduleId &&
    (match m.moduleId with | .ok s => isValidModuleId s | _ => true) &&
    rfOk m.klass &&
    (match m.klass with | .ok s => isAllowedClass s | _ => true) &&
    rfOk m.version &&
    (match m.version with | .ok s => isValidSemver s | _ => true) &&
    rfOk m.capabilities &&
    (match m.capabilities with | .ok caps => caps.all capabilityRulesB | _ => true) &&
    rfOk m.dependencies &&
    (match m.dependencies with | .ok deps => deps.all dependencyRulesB | _ => true) &&
    rfOk m.metadata && m.extraFields.isEmpty

/-- Every structural and business rule of a candidate document, in one conjunction. -/
def manifestRulesB (v : RawValue) : Bool :=
  schemaRulesB v &&
  (match v with
   | .obj m => businessRulesB (extractManifest m)
   | .notObject => false)

/-- Concrete fixture for C6: a document violating one schema rule (the version
`"v1.0.0"` is not a semver) and one business rule (the capability id `x:y` appears
twice) at the same time. -/
def c6raw : RawValue :=
  .obj
    { moduleId := .ok "webwaka-core-dup"
      klass := .ok "core"
      version := .ok "v1.0.0"
      capabilities := .ok
        [ { id := .ok "x:y", name := .ok "One", description := .ok "First"
            version := .missing, extraFields := [] }
        , { id := .ok "x:y", name := .ok "Two", description := .ok "Second"
            version := .missing, extraFields := [] } ]
      dependencies := .ok []
      metadata := .ok ()
      extraFields := [] }

/-- The raw object underlying `mHello.toRaw` (total extraction for statements). -/
def mHelloRawM : RawManifest :=
  match mHello.toRaw with
  | .obj m => m
  | .notObject =>
    { moduleId := .missing, klass := .missing, version := .missing
      capabilities := .missing, dependencies := .missing, metadata := .missing
      extraFields := [] }

/-- A string with no `':'` character; registered module ids and validated dependency
targets satisfy this because the module-id pattern excludes `':'`. -/
def colonFree (s : String) : Bool := s.data.all (fun c => c != ':')

/-- Well-formedness the registration path guarantees for the module store: unique
keys, each entry keyed by its record's id, and colon-free module and dependency ids
(every stored record passed the module-id pattern and the dependency-format check). -/
def StoreWF (st : Storage) : Prop :=
  (st.modules.map Prod.fst).Nodup ∧
  ∀ p ∈ st.modules, p.1 = p.2.moduleId ∧ colonFree p.1 = true ∧
    ∀ d ∈ p.2.dependencies, colonFree d.moduleId = true

/-- The C2 invariant: whenever a registered module is enabled for a tenant, each of
its non-optional declared dependencies is enabled for that tenant as well. -/
def DepInv (st : Storage) : Prop :=
  ∀ t m r, st.getModule m = some r → isEnabled st t m = true →
    ∀ d ∈ r.dependencies, d.optional = false → isEnabled st t d.moduleId = true

/-- States reachable by `enableModule`, `disableModule` and `unregisterModule` — the
operation set named by the claim — starting from a well-formed module store with no
tenant state yet (the situation after any sequence of registrations).  Failed
operations leave the state untouched, so only successful transitions appear. -/
inductive ReachableTD : RegistryState → Prop where
  | init (s : RegistryState) (hwf : StoreWF s.storage)
      (hts : s.storage.tenantStates = []) : ReachableTD s
  | enable (s : RegistryState) (t m : String) (now : Nat) (ts : TenantModuleState)
      (st' : Storage) (hr : ReachableTD s)
      (h : enableModule s.storage t m now = .ok (ts, st')) :
      ReachableTD { s with storage := st' }
  | disable (s : RegistryState) (t m : String) (now : Nat) (ts : TenantModuleState)
      (st' : Storage) (hr : ReachableTD s)
      (h : disableModule s.storage t m now = .ok (ts, st')) :
      ReachableTD { s with storage := st' }
  | unreg (s : RegistryState) (mid : String) (hr : ReachableTD s) :
      ReachableTD (unregisterModule s mid).2

/-- Concrete fixture: a module with a required dependency on the already-registered
`mHello`. -/
def mDep : Manifest :=
  { moduleId := "webwaka-core-dep", klass := .core, version := "1.0.0"
    capabilities := [], dependencies := [⟨"webwaka-core-hello", none, false⟩] }

/-- The stored record of the registered `mDep` fixture. -/
def rDep : RegisteredModule := { toManifest := mDep, registeredAt := 1 }

/-- Registry state after registering `mHello` and then `mDep`. -/
def sDep : RegistryState := regStateD (registerModule sHelloR mDep 1) emptyRegistry

/-- States reachable by successful `registerModule` calls alone, where every declared
dependency target of each candidate is already registered at its registration time
(the hypothesis of the amended C1). -/
inductive RegOnlyReach : RegistryState → Prop where
  | init : RegOnlyReach emptyRegistry
  | step (s : RegistryState) (m : Manifest) (now : Nat) (r : RegisteredModule)
      (s' : RegistryState) (hr : RegOnlyReach s)
      (h : registerModule s m now = .ok (r, s'))
      (hdeps : ∀ d ∈ m.dependencies, (s.storage.getModule d.moduleId).isSome = true) :
      RegOnlyReach s'

/-- A store whose dependency graph admits a strictly decreasing rank: every declared
dependency target is registered and sits strictly below its dependent.  This is the
inductive invariant of registration with the dependency-existence discipline. -/
def RankedStore (l : List (String × RegisteredModule)) : Prop :=
  ∃ (rank : String → Nat) (n : Nat),
    (∀ k ∈ l.map Prod.fst, rank k < n) ∧
    (∀ p ∈ l, ∀ d ∈ p.2.dependencies, d.moduleId ∈ l.map Prod.fst) ∧
    (∀ p ∈ l, ∀ d ∈ p.2.dependencies, rank d.moduleId < rank p.1)

/-- Number of registered module ids not yet visited — the measure showing the fuel
of `checkCircularDependencies` is never exhausted. -/
def remCount (store : List (String × RegisteredModule)) (visited : List String) : Nat :=
  ((store.map Prod.fst).filter (fun k => !visited.contains k)).length

/-- Sequential worklist processing of `dist/registry.js` `getDependencyOrder`'s
inner `visit` loop (`for (const dep of mod.dependencies) if (!dep.optional) visit(dep.moduleId)`),
parameterized by the per-id step. -/
def distVisitList (step : String → List String × List String → List String × List String) :
    List String → List String × List String → List String × List String
  | [], st => st
  | id :: rest, st => distVisitList step rest (step id st)

/-- Embedding of `dist/registry.js` `getDependencyOrder`'s recursive `visit`
(lines 379-392): skip if visited, mark visited, stop on unregistered ids, otherwise
visit every non-optional dependency and push the id post-order.  The state is
`(visited, result)`; the source recursion has no explicit bound, and the fuel chosen
by `distGetDependencyOrder` is provably never exhausted, since every recursion level
enters a fresh id and only registered ids recurse. -/
def distVisitOne (store : List (String × RegisteredModule)) :
    Nat → String → List String × List String → List String × List String
  | 0, _, st => st
  | fuel + 1, id, st =>
    if st.1.contains id then st
    else
      match alookup id store with
      | none => (id :: st.1, st.2)
      | some mod =>
        let st' := distVisitList (distVisitOne store fuel) (depIdsNonOpt mod)
          (id :: st.1, st.2)
        (st'.1, st'.2 ++ [id])

/-- Embedding of `dist/registry.js` `ModuleRegistry.getDependencyOrder` (lines
372-395): empty for an unregistered module, otherwise the post-order DFS result. -/
def distGetDependencyOrder (store : List (String × RegisteredModule))
    (moduleId : String) : List String :=
  match alookup moduleId store with
  | none => []
  | some _ => (distVisitOne store (store.length + 2) moduleId ([], [])).2

/-- Transitive non-optional dependency closure of `root` over registered modules. -/
inductive InClosure (store : List (String × RegisteredModule)) (root : String) :
    String → Prop where
  | base : InClosure store root root
  | step {x y : String} {mod : RegisteredModule} : InClosure store root x →
      alookup x store = some mod → y ∈ depIdsNonOpt mod → InClosure store root y

/-- Topological-order property of an id list: every registered element's
non-optional dependency targets occur strictly earlier. -/
def TopoOut (store : List (String × RegisteredModule)) (res : List String) : Prop :=
  ∀ pre x post, res = pre ++ x :: post → ∀ mod, alookup x store = some mod →
    ∀ y ∈ depIdsNonOpt mod, y ∈ pre

/-- Well-formedness of the dist registry store, guaranteed by its `registerModule`:
entries keyed by their record id, and a rank witnessing that every non-optional
dependency target was registered strictly before its dependent (dist registration
refuses candidates whose non-optional dependencies are absent). -/
def DistStoreWF (store : List (String × RegisteredModule)) : Prop :=
  (∀ p ∈ store, p.1 = p.2.moduleId) ∧
  ∃ rank : String → Nat, ∀ p ∈ store, ∀ x ∈ depIdsNonOpt p.2,
    x ∈ store.map Prod.fst ∧ rank x < rank p.1

/-- Invariant of the DFS state relative to a gray (in-progress) set `G`: every
visited registered id is finished or gray, finished ids are visited registered
non-gray, and the finished list is duplicate-free and topologically ordered. -/
def DVInv (store : List (String × RegisteredModule))
    (st : List String × List String) (G : List String) : Prop :=
  (∀ x ∈ store.map Prod.fst, x ∈ st.1 → x ∈ st.2 ∨ x ∈ G) ∧
  (∀ x ∈ st.2, x ∈ store.map Prod.fst ∧ x ∈ st.1 ∧ x ∉ G) ∧
  TopoOut store st.2 ∧ st.2.Nodup

/-- Postcondition of a DFS step: visited grows, the result extends by `R`-elements
only, the invariant is preserved and the unvisited count does not increase. -/
def DVPost (store : List (String × RegisteredModule)) (R : String → Prop)
    (st st' : List String × List String) (G : List String) : Prop :=
  (∀ x ∈ st.1, x ∈ st'.1) ∧
  (∃ new, st'.2 = st.2 ++ new ∧ ∀ x ∈ new, R x) ∧
  DVInv store st' G ∧
  remCount store st'.1 ≤ remCount store st.1

/-- Concrete dist-registry fixtures: `hello` (no deps), `dep` (requires hello) and
`top2` (requires both), registered in dependency order as dist registration insists. -/
def rDistHello : RegisteredModule := { toManifest := mHello, registeredAt := 0 }

/-- Stored record of the `dep` fixture in the dist store. -/
def rDistDep : RegisteredModule := { toManifest := mDep, registeredAt := 1 }

/-- Stored record of the `top2` fixture in the dist store. -/
def rDistTop : RegisteredModule :=
  { moduleId := "webwaka-core-top2", klass := .core, version := "1.0.0"
    capabilities := []
    dependencies := [⟨"webwaka-core-dep", none, false⟩,
      ⟨"webwaka-core-hello", none, false⟩]
    registeredAt := 2 }

/-- A concrete dist-registry module store. -/
def distStoreW : List (String × RegisteredModule) :=
  [("webwaka-core-hello", rDistHello), ("webwaka-core-dep", rDistDep),
   ("webwaka-core-top2", rDistTop)]

/-- Concrete rank function witnessing `DistStoreWF distStoreW`. -/
def distRankW (s : String) : Nat :=
  if s = "webwaka-core-hello" then 0 else if s = "webwaka-core-dep" then 1 else 2

/-! Helper lemmas and claim theorems. -/

theorem alookup_aset_self {α : Type} (k : String) (v : α) (l : List (String × α)) :
    alookup k (aset k v l) = some v := by
  induction l with
  | nil => simp [aset, alookup]
  | cons h t ih =>
    obtain ⟨k', v'⟩ := h
    by_cases hk : k' = k
    · simp [aset, alookup, hk]
    · simp [aset, alookup, hk, ih]

theorem alookup_aset_ne {α : Type} {k k' : String} (hne : k' ≠ k) (v : α)
    (l : List (String × α)) : alookup k' (aset k v l) = alookup k' l := by
  induction l with
  | nil =>
    have : ¬(k = k') := fun h => hne h.symm
    simp [aset, alookup, this]
  | cons h t ih =>
    obtain ⟨k0, v0⟩ := h
    by_cases hk : k0 = k
    · subst hk
      have h1 : ¬(k0 = k') := fun h => hne h.symm
      simp [aset, alookup, h1]
    · simp [aset, alookup, hk, ih]

theorem alookup_adel_ne {α : Type} {k k' : String} (hne : k' ≠ k)
    (l : List (String × α)) : alookup k' (adel k l) = alookup k' l := by
  induction l with
  | nil => simp [adel]
  | cons h t ih =>
    obtain ⟨k0, v0⟩ := h
    by_cases hk : k0 = k
    · subst hk
      have h1 : ¬(k0 = k') := fun h => hne h.symm
      simp [adel, alookup, h1, ih]
    · simp [adel, alookup, hk, ih]

example : isValidModuleId "webwaka-core-hello" = true := by decide
example : isValidModuleId "webwaka-core-" = false := by decide
example : isValidModuleId "webwaka-shop-x" = false := by decide
example : isValidCapabilityId "hello:greet" = true := by decide
example : isValidCapabilityId "hello-greet" = false := by decide
example : isValidCapabilityId "a:b:c" = false := by decide
example : isValidSemver "1.0.0" = true := by decide
example : isValidSemver "v1.0.0" = false := by decide
example : isValidSemver "1.0" = false := by decide
example : isValidSemver "1.0.0-alpha.1+build-7" = true := by decide
example : isValidSemver "1.0.0-01" = false := by decide

/-- C1: counterexample.  The claim states that after every sequence of successful
`registerModule`/`unregisterModule` calls — including registering a module whose
declared dependency target only registers later — the restricted dependency graph is
acyclic.  Concretely: registering `webwaka-core-b` (depending on the not-yet-present
`webwaka-core-a`) and then `webwaka-core-a` (depending on `webwaka-core-b`) both
succeed, because `checkCircularDependencies` skips unregistered targets and the
candidate itself is never in the store during its own check; the resulting state
contains the two-module cycle a → b → a with both endpoints registered. -/
theorem c1_counterexample :
    regOk (registerModule emptyRegistry mB 0) = true ∧
    regOk (registerModule s1B mA 1) = true ∧
    isDepCycleList s2AB.storage ["webwaka-core-a", "webwaka-core-b"] = true := by
  decide

/-- C5: behaviour of the code at the failing input.  Tenant ids are raw strings glued
into the composite key `tenantId + ":" + moduleId`, and `getTenantStates` selects by
`startsWith(tenantId + ":")`; hence enabling `webwaka-core-hello` for the tenant
`"acme:prod"` makes `getEnabledModules "acme"` — a different tenant — report the
module, although `isEnabled "acme"` still reads false. -/
theorem c5_code_behavior :
    regOk (registerModule emptyRegistry mHello 0) = true ∧
    tenOk (enableModule sHelloR.storage "acme:prod" "webwaka-core-hello" 5) = true ∧
    getEnabledModules sHelloR.storage "acme" = [] ∧
    getEnabledModules sHelloEn "acme" = ["webwaka-core-hello"] ∧
    isEnabled sHelloEn "acme" "webwaka-core-hello" = false := by
  decide

/-- C8: counterexample.  The claim states the registration-time cycle check walks only
non-optional dependency edges.  In the state `s2AB` (which holds the registered cycle
a → b → a), the candidate `webwaka-core-c` declares a single *optional* dependency on
`webwaka-core-a`: the claim's non-optional walk starts from no edge at all and finds
no revisit, yet `registerModule` fails with CIRCULAR_DEPENDENCY because the source
walks every declared dependency edge, optional ones included. -/
theorem c8_counterexample :
    registerModule s2AB mC 2 =
      .error (.circularDependency
        ["webwaka-core-c", "webwaka-core-a", "webwaka-core-b", "webwaka-core-a"]) ∧
    ¬ CandCycleWalk s2AB.storage mC depIdsNonOpt
        ((mC.dependencies.filter (fun d => !d.optional)).map (·.moduleId)) := by
  constructor
  · rfl
  · rintro ⟨w, hw, hhead, _, _⟩
    have hg : ((mC.dependencies.filter (fun d => !d.optional)).map (·.moduleId)) =
        ([] : List String) := by decide
    rw [hg] at hhead
    simp at hhead

/-- C3: `enableModule` fails with MODULE_NOT_FOUND for an unregistered module; fails
with ALREADY_ENABLED when the tenant state is already enabled (no idempotent
success); fails with the dependency-not-enabled condition carrying exactly the
non-optional dependencies not enabled for the tenant when that set is non-empty; and
otherwise transitions the (tenant, module) state to enabled stamped with the current
time.  The final conjunct characterizes the carried set element by element. -/
theorem c3_enable_spec (s : Storage) (t m : String) (now : Nat) :
    (s.getModule m = none → enableModule s t m now = .error (.moduleNotFound m t)) ∧
    (∀ r, s.getModule m = some r → isEnabled s t m = true →
      enableModule s t m now = .error (.alreadyEnabled m t)) ∧
    (∀ r, s.getModule m = some r → isEnabled s t m = false → missingDepsOf s t r ≠ [] →
      enableModule s t m now = .error (.dependencyMissing m t (missingDepsOf s t r))) ∧
    (∀ r, s.getModule m = some r → isEnabled s t m = false → missingDepsOf s t r = [] →
      enableModule s t m now =
        .ok (⟨t, m, true, now⟩, s.saveTenantState ⟨t, m, true, now⟩) ∧
      isEnabled (s.saveTenantState ⟨t, m, true, now⟩) t m = true) ∧
    (∀ r d, s.getModule m = some r →
      (d ∈ missingDepsOf s t r ↔ ∃ dep, dep ∈ r.dependencies ∧ dep.moduleId = d ∧
        dep.optional = false ∧ isEnabled s t dep.moduleId = false)) := by
  refine ⟨?_, ?_, ?_, ?_, ?_⟩
  · intro h
    simp [enableModule, h]
  · intro r hr hen
    simp only [isEnabled] at hen
    simp [enableModule, hr, hen]
  · intro r hr hen hne
    simp only [isEnabled] at hen
    have hmiss : (missingDepsOf s t r).isEmpty = false := by
      cases hmv : missingDepsOf s t r with
      | nil => exact absurd hmv hne
      | cons a l => rfl
    simp only [missingDepsOf] at hmiss
    simp [enableModule, hr, hen, hmiss, missingDepsOf]
  · intro r hr hen hmiss
    simp only [isEnabled] at hen
    have hmiss' : (missingDepsOf s t r).isEmpty = true := by
      simp [hmiss]
    simp only [missingDepsOf] at hmiss'
    constructor
    · simp [enableModule, hr, hen, hmiss']
    · simp [isEnabled, Storage.getTenantState, Storage.saveTenantState,
        alookup_aset_self, stEnabled]
  · intro r d hr
    simp only [missingDepsOf, List.mem_map, List.mem_filter]
    constructor
    · rintro ⟨dep, ⟨hmem, hopt⟩, hid⟩
      rw [Bool.and_eq_true, Bool.not_eq_true', Bool.not_eq_true'] at hopt
      exact ⟨dep, hmem, hid, hopt.1, by simpa [isEnabled] using hopt.2⟩
    · rintro ⟨dep, hmem, hid, hopt, hen⟩
      simp only [isEnabled] at hen
      exact ⟨dep, ⟨hmem, by simp [hopt, hen]⟩, hid⟩

/-- C3 witness: at the concrete registered `mHello` store, enabling for tenant
`"demo"` succeeds and stamps the time. -/
theorem c3_enable_spec_witness :
    enableModule sHelloR.storage "demo" "webwaka-core-hello" 7 =
      .ok (⟨"demo", "webwaka-core-hello", true, 7⟩,
        sHelloR.storage.saveTenantState ⟨"demo", "webwaka-core-hello", true, 7⟩) :=
  ((c3_enable_spec sHelloR.storage "demo" "webwaka-core-hello" 7).2.2.2.1 rHello
    (by decide) (by decide) (by decide)).1

/-- C4: `disableModule` fails with MODULE_NOT_FOUND for an unregistered module; fails
with ALREADY_DISABLED when the tenant state is absent or already disabled (no
idempotent success); fails with the dependent-enabled condition carrying exactly the
other registered modules that list this module as a non-optional dependency and are
enabled for the tenant, when that set is non-empty; and otherwise transitions the
(tenant, module) state to disabled stamped with the current time.  The final
conjunct characterizes the carried set element by element. -/
theorem c4_disable_spec (s : Storage) (t m : String) (now : Nat) :
    (s.getModule m = none → disableModule s t m now = .error (.moduleNotFound m t)) ∧
    (∀ r, s.getModule m = some r → isEnabled s t m = false →
      disableModule s t m now = .error (.alreadyDisabled m t)) ∧
    (∀ r, s.getModule m = some r → isEnabled s t m = true →
      enabledDependentsOf s t m ≠ [] →
      disableModule s t m now = .error (.dependentExists m t (enabledDependentsOf s t m))) ∧
    (∀ r, s.getModule m = some r → isEnabled s t m = true →
      enabledDependentsOf s t m = [] →
      disableModule s t m now =
        .ok (⟨t, m, false, now⟩, s.saveTenantState ⟨t, m, false, now⟩) ∧
      isEnabled (s.saveTenantState ⟨t, m, false, now⟩) t m = false) ∧
    (∀ d, d ∈ enabledDependentsOf s t m ↔ ∃ other, other ∈ s.getAllModules ∧
      other.moduleId = d ∧ other.moduleId ≠ m ∧
      (∃ dep, dep ∈ other.dependencies ∧ dep.moduleId = m ∧ dep.optional = false) ∧
      isEnabled s t other.moduleId = true) := by
  refine ⟨?_, ?_, ?_, ?_, ?_⟩
  · intro h
    simp [disableModule, h]
  · intro r hr hen
    simp only [isEnabled] at hen
    simp [disableModule, hr, hen]
  · intro r hr hen hne
    simp only [isEnabled] at hen
    have hdep : (enabledDependentsOf s t m).isEmpty = false := by
      cases hmv : enabledDependentsOf s t m with
      | nil => exact absurd hmv hne
      | cons a l => rfl
    simp only [enabledDependentsOf] at hdep
    simp [disableModule, hr, hen, hdep, enabledDependentsOf]
  · intro r hr hen hdeps
    simp only [isEnabled] at hen
    have hdep' : (enabledDependentsOf s t m).isEmpty = true := by
      simp [hdeps]
    simp only [enabledDependentsOf] at hdep'
    constructor
    · simp [disableModule, hr, hen, hdep']
    · simp [isEnabled, Storage.getTenantState, Storage.saveTenantState,
        alookup_aset_self, stEnabled]
  · intro d
    simp only [enabledDependentsOf, List.mem_map, List.mem_filter]
    constructor
    · rintro ⟨other, ⟨hmem, hcond⟩, hid⟩
      rw [Bool.and_eq_true, Bool.and_eq_true] at hcond
      obtain ⟨⟨hne', hany⟩, hst⟩ := hcond
      rw [List.any_eq_true] at hany
      obtain ⟨dep, hdmem, hd⟩ := hany
      rw [Bool.and_eq_true, Bool.not_eq_true'] at hd
      refine ⟨other, hmem, hid, by simpa using hne', ⟨dep, hdmem, by simpa using hd.1, hd.2⟩,
        by simpa [isEnabled] using hst⟩
    · rintro ⟨other, hmem, hid, hne', ⟨dep, hdmem, hdid, hdopt⟩, hst⟩
      simp only [isEnabled] at hst
      refine ⟨other, ⟨hmem, ?_⟩, hid⟩
      rw [Bool.and_eq_true, Bool.and_eq_true]
      refine ⟨⟨by simpa using hne', ?_⟩, hst⟩
      rw [List.any_eq_true]
      exact ⟨dep, hdmem, by simp [hdid, hdopt]⟩

/-- C4 witness: with `mHello` registered and enabled for tenant `"demo"` (and no
dependents), disabling succeeds and stamps the time. -/
theorem c4_disable_spec_witness :
    disableModule sHelloDemo "demo" "webwaka-core-hello" 9 =
      .ok (⟨"demo", "webwaka-core-hello", false, 9⟩,
        sHelloDemo.saveTenantState ⟨"demo", "webwaka-core-hello", false, 9⟩) :=
  ((c4_disable_spec sHelloDemo "demo" "webwaka-core-hello" 9).2.2.2.1 rHello
    (by decide) (by decide) (by decide)).1

/-- C7: registering a module `bm` that shares a capability id `c` with an
already-registered module `A` fails with the capability-conflict condition (the
conflict list contains `c`), and — since every check of `registerModule` and the
first pass of `registerCapabilities` precede any mutation, and an error result
carries no new state — the caller retains the state `s` unchanged, in which `c`
still resolves to `A` exactly as before the attempt. -/
theorem c7_capability_conflict (s : RegistryState) (bm : Manifest) (now : Nat)
    (c : String) (cap : Capability) (A : RegisteredModule)
    (hvalid : (validateManifest bm).valid = true)
    (hnew : s.storage.getModule bm.moduleId = none)
    (hcB : c ∈ bm.capabilities.map (·.id))
    (hbound : alookup c s.resolver.capabilityMap = some (cap, A))
    (hfmt : isValidCapabilityId c = true) :
    registerModule s bm now =
      .error (.capabilityConflict (checkForDuplicates s.resolver bm.capabilities none)) ∧
    c ∈ checkForDuplicates s.resolver bm.capabilities none ∧
    resolveCapability s.resolver c = .ok ⟨cap, A⟩ ∧
    hasCapability s.resolver c = true := by
  have hmem : c ∈ checkForDuplicates s.resolver bm.capabilities none := by
    simp only [checkForDuplicates, List.mem_map, List.mem_filter]
    rw [List.mem_map] at hcB
    obtain ⟨capb, hcapb, hid⟩ := hcB
    refine ⟨capb, ⟨hcapb, ?_⟩, hid⟩
    rw [hid, hbound]
    simp
  refine ⟨?_, hmem, ?_, ?_⟩
  · have hne : (checkForDuplicates s.resolver bm.capabilities none).isEmpty = false := by
      cases hmv : checkForDuplicates s.resolver bm.capabilities none with
      | nil => rw [hmv] at hmem; cases hmem
      | cons a l => rfl
    simp only [registerModule]
    rw [hvalid, hnew, hne]
    simp
  · simp [resolveCapability, hfmt, hbound]
  · simp [hasCapability, hbound]

/-- C7 witness: registering `mClash` (sharing `hello:greet`) into the registry that
already holds `mHello` fails with the conflict carrying `hello:greet`, and the
capability still resolves to `mHello`. -/
theorem c7_capability_conflict_witness :
    registerModule sHelloR mClash 3 =
      .error (.capabilityConflict (checkForDuplicates sHelloR.resolver mClash.capabilities none)) ∧
    "hello:greet" ∈ checkForDuplicates sHelloR.resolver mClash.capabilities none ∧
    resolveCapability sHelloR.resolver "hello:greet" = .ok ⟨capHello, rHello⟩ ∧
    hasCapability sHelloR.resolver "hello:greet" = true :=
  c7_capability_conflict sHelloR mClash 3 "hello:greet" capHello rHello
    (by decide) (by decide) (by decide) (by decide) (by decide)

theorem alookup_eq_none_of_not_mem {α : Type} {k : String} {l : List (String × α)}
    (h : k ∉ l.map Prod.fst) : alookup k l = none := by
  induction l with
  | nil => rfl
  | cons p rest ih =>
    obtain ⟨k0, v0⟩ := p
    simp only [List.map_cons, List.mem_cons] at h
    push_neg at h
    have h1 : ¬(k0 = k) := fun hh => h.1 hh.symm
    simp [alookup, h1, ih h.2]

theorem adel_keys_sublist {α : Type} (k : String) (l : List (String × α)) :
    List.Sublist ((adel k l).map Prod.fst) (l.map Prod.fst) := by
  induction l with
  | nil => simp [adel]
  | cons p rest ih =>
    obtain ⟨k0, v0⟩ := p
    by_cases hk : k0 = k
    · simp only [adel, hk]
      simp
    · simp only [adel]
      rw [if_neg (by simpa using hk)]
      simp only [List.map_cons]
      exact List.Sublist.cons₂ k0 ih

theorem alookup_adel_self {α : Type} {k : String} {l : List (String × α)}
    (hn : (l.map Prod.fst).Nodup) : alookup k (adel k l) = none := by
  induction l with
  | nil => rfl
  | cons p rest ih =>
    obtain ⟨k0, v0⟩ := p
    simp only [List.map_cons, List.nodup_cons] at hn
    by_cases hk : k0 = k
    · subst hk
      simp only [adel, if_pos rfl]
      exact alookup_eq_none_of_not_mem (by simpa using hn.1)
    · simp [adel, hk, alookup, ih hn.2]

theorem alookup_foldl_adel {α : Type} (caps : List String) (l : List (String × α))
    (hn : (l.map Prod.fst).Nodup) (c : String) :
    alookup c (caps.foldl (fun acc k => adel k acc) l) =
      if c ∈ caps then none else alookup c l := by
  induction caps generalizing l with
  | nil => simp
  | cons k rest ih =>
    have hn' : ((adel k l).map Prod.fst).Nodup := (adel_keys_sublist k l).nodup hn
    simp only [List.foldl_cons]
    rw [ih (adel k l) hn']
    by_cases hcr : c ∈ rest
    · simp [hcr]
    · by_cases hck : c = k
      · subst hck
        simp [hcr, alookup_adel_self hn]
      · simp [hcr, hck, alookup_adel_ne hck]

/-- C10: unregistering a registered module `M` removes all of `M`'s capability
bindings and only those: the call returns `true`, every capability id `M` declared
stops resolving (`hasCapability` false, `resolveCapability` NOT_FOUND for
well-formed ids), every other capability binding is untouched, and the module record
is gone.  The hypotheses are the state the registration path establishes: the
tracking entry holds exactly `M`'s declared ids and the JS maps have unique keys. -/
theorem c10_unregister (s : RegistryState) (mid : String) (M : RegisteredModule)
    (hreg : s.storage.getModule mid = some M)
    (htr : alookup mid s.resolver.moduleCapabilities = some (M.capabilities.map (·.id)))
    (hnodup : (s.resolver.capabilityMap.map Prod.fst).Nodup)
    (hmn : (s.storage.modules.map Prod.fst).Nodup) :
    (unregisterModule s mid).1 = true ∧
    (∀ c, c ∈ M.capabilities.map (·.id) →
      hasCapability (unregisterModule s mid).2.resolver c = false ∧
      (isValidCapabilityId c = true →
        resolveCapability (unregisterModule s mid).2.resolver c = .error (.notFound c))) ∧
    (∀ c, c ∉ M.capabilities.map (·.id) →
      alookup c (unregisterModule s mid).2.resolver.capabilityMap =
        alookup c s.resolver.capabilityMap) ∧
    (unregisterModule s mid).2.storage.getModule mid = none := by
  have hun : unregisterModule s mid =
      ((alookup mid s.storage.modules).isSome,
        { storage := { s.storage with modules := adel mid s.storage.modules }
          resolver :=
            { capabilityMap := (M.capabilities.map (·.id)).foldl
                (fun acc c => adel c acc) s.resolver.capabilityMap
              moduleCapabilities := adel mid s.resolver.moduleCapabilities } }) := by
    simp [unregisterModule, hreg, unregisterCapabilities, htr, Storage.deleteModule]
  refine ⟨?_, ?_, ?_, ?_⟩
  · rw [hun]
    simp only [Storage.getModule] at hreg
    simp [hreg]
  · intro c hc
    have hl : alookup c (unregisterModule s mid).2.resolver.capabilityMap = none := by
      rw [hun]
      simp only
      rw [alookup_foldl_adel _ _ hnodup]
      simp [hc]
    constructor
    · simp [hasCapability, hl]
    · intro hfmt
      simp [resolveCapability, hfmt, hl]
  · intro c hc
    rw [hun]
    simp only
    rw [alookup_foldl_adel _ _ hnodup]
    simp [hc]
  · rw [hun]
    simp only [Storage.getModule]
    exact alookup_adel_self hmn

/-- C10 witness: unregistering the registered `mHello` returns true, `hello:greet`
stops resolving with NOT_FOUND, and the module record is gone. -/
theorem c10_unregister_witness :
    (unregisterModule sHelloR "webwaka-core-hello").1 = true ∧
    hasCapability (unregisterModule sHelloR "webwaka-core-hello").2.resolver
      "hello:greet" = false ∧
    resolveCapability (unregisterModule sHelloR "webwaka-core-hello").2.resolver
      "hello:greet" = .error (.notFound "hello:greet") ∧
    (unregisterModule sHelloR "webwaka-core-hello").2.storage.getModule
      "webwaka-core-hello" = none := by
  have h := c10_unregister sHelloR "webwaka-core-hello" rHello
    (by decide) (by decide) (by decide) (by decide)
  exact ⟨h.1, (h.2.1 "hello:greet" (by decide)).1,
    (h.2.1 "hello:greet" (by decide)).2 (by decide), h.2.2.2⟩

theorem requiredFieldErrors_eq_nil {α : Type} (p : String) (f : RField α) :
    requiredFieldErrors p f = [] ↔ rfOk f = true := by
  cases f <;> simp [requiredFieldErrors, rfOk]

theorem optionalFieldErrors_eq_nil {α : Type} (p : String) (f : RField α) :
    optionalFieldErrors p f = [] ↔ rfOptOk f = true := by
  cases f <;> simp [optionalFieldErrors, rfOptOk]

theorem patternErrors_eq_nil (p : String) (f : RField String) (pat : String → Bool) :
    patternErrors p f pat = [] ↔
      (match f with | .ok v => pat v | _ => true) = true := by
  cases f with
  | ok v => by_cases h : pat v <;> simp [patternErrors, h]
  | missing => simp [patternErrors]
  | badType => simp [patternErrors]

theorem extraFieldErrors_eq_nil (p : String) (l : List String) :
    extraFieldErrors p l = [] ↔ l.isEmpty = true := by
  cases l <;> simp [extraFieldErrors]

theorem capabilitySchemaErrors_eq_nil (c : RawCapability) :
    capabilitySchemaErrors c = [] ↔ capabilityRulesB c = true := by
  simp only [capabilitySchemaErrors, capabilityRulesB, List.append_eq_nil,
    requiredFieldErrors_eq_nil, optionalFieldErrors_eq_nil, patternErrors_eq_nil,
    extraFieldErrors_eq_nil, Bool.and_eq_true]

theorem dependencySchemaErrors_eq_nil (d : RawDependency) :
    dependencySchemaErrors d = [] ↔ dependencyRulesB d = true := by
  simp only [dependencySchemaErrors, dependencyRulesB, List.append_eq_nil,
    requiredFieldErrors_eq_nil, optionalFieldErrors_eq_nil, extraFieldErrors_eq_nil,
    Bool.and_eq_true]

theorem classEnumErrors_eq_nil (f : RField String) :
    classEnumErrors f = [] ↔
      (match f with | .ok v => isAllowedClass v | _ => true) = true := by
  cases f with
  | ok v => by_cases h : isAllowedClass v <;> simp [classEnumErrors, h]
  | missing => simp [classEnumErrors]
  | badType => simp [classEnumErrors]

theorem capListErrors_eq_nil (f : RField (List RawCapability)) :
    capListErrors f = [] ↔
      (match f with | .ok caps => caps.all capabilityRulesB | _ => true) = true := by
  cases f with
  | ok caps =>
    simp only [capListErrors, List.flatMap_eq_nil_iff, List.all_eq_true,
      capabilitySchemaErrors_eq_nil]
  | missing => simp [capListErrors]
  | badType => simp [capListErrors]

theorem depListErrors_eq_nil (f : RField (List RawDependency)) :
    depListErrors f = [] ↔
      (match f with | .ok deps => deps.all dependencyRulesB | _ => true) = true := by
  cases f with
  | ok deps =>
    simp only [depListErrors, List.flatMap_eq_nil_iff, List.all_eq_true,
      dependencySchemaErrors_eq_nil]
  | missing => simp [depListErrors]
  | badType => simp [depListErrors]

theorem schemaErrors_eq_nil (v : RawValue) :
    schemaErrors v = [] ↔ schemaRulesB v = true := by
  cases v with
  | notObject => simp [schemaErrors, schemaRulesB]
  | obj m =>
    simp only [schemaErrors, schemaRulesB, List.append_eq_nil,
      requiredFieldErrors_eq_nil, patternErrors_eq_nil, extraFieldErrors_eq_nil,
      classEnumErrors_eq_nil, capListErrors_eq_nil, depListErrors_eq_nil,
      Bool.and_eq_true]

theorem dupScan_eq_nil (mk : String → ValidationError) (seen ids : List String) :
    dupScan mk seen ids = [] ↔ dupFreeB seen ids = true := by
  induction ids generalizing seen with
  | nil => simp [dupScan, dupFreeB]
  | cons x rest ih =>
    cases hx : seen.contains x with
    | true =>
      simp [dupScan, dupFreeB, hx]
      intro _
      exact ih _
    | false => simp [dupScan, dupFreeB, hx, ih]

theorem classPrefixErrors_eq_nil (m : Manifest) :
    classPrefixErrors m = [] ↔
      strStartsWith m.moduleId ("webwaka-" ++ m.klass.str ++ "-") = true := by
  by_cases h : strStartsWith m.moduleId ("webwaka-" ++ m.klass.str ++ "-") <;>
    simp [classPrefixErrors, h]

theorem selfDepErrors_eq_nil (m : Manifest) :
    selfDepErrors m = [] ↔
      m.dependencies.all (fun d => d.moduleId != m.moduleId) = true := by
  simp only [selfDepErrors, List.map_eq_nil_iff, List.filter_eq_nil_iff,
    List.all_eq_true]
  constructor
  · intro h d hd
    have := h d hd
    simpa using this
  · intro h d hd
    have := h d hd
    simpa using this

theorem businessRuleErrors_eq_nil (m : Manifest) :
    businessRuleErrors m = [] ↔ businessRulesB m = true := by
  simp only [businessRuleErrors, businessRulesB, List.append_eq_nil,
    Bool.and_eq_true, dupScan_eq_nil, nodupB, classPrefixErrors_eq_nil,
    selfDepErrors_eq_nil]

/-- C6: counterexample.  The claim states the returned error list is complete — an
entry for every violated structural and business rule.  The document `c6raw`
violates the semver schema rule (`"v1.0.0"`) and the duplicate-capability business
rule (`x:y` twice) at the same time, yet `validate` returns early after the schema
stage: the result is invalid, the duplicate-capability rule is indeed violated, but
no DUPLICATE_CAPABILITY entry appears in the returned list. -/
theorem c6_counterexample :
    (validate c6raw).valid = false ∧
    (match c6raw with
     | .obj m => nodupB ((extractManifest m).capabilities.map (·.id))
     | .notObject => true) = false ∧
    (validate c6raw).errors.all (fun e => e.code != "DUPLICATE_CAPABILITY") = true := by
  decide

/-- C6 amended: `validate` is a total function returning `{valid, errors}` (the
embedding is total by construction, and with a loaded schema every non-object is
rejected by the schema stage rather than thrown on); `valid` is true exactly when
every structural and business rule holds; and the error list is complete within the
reported stage — when any schema violation exists the list is exactly the complete
schema-error list (business checks are skipped), and when the schema stage passes
the list is exactly the complete business-rule error list. -/
theorem c6_amended (v : RawValue) :
    ((validate v).valid = true ↔ manifestRulesB v = true) ∧
    (schemaErrors v ≠ [] → (validate v).errors = schemaErrors v) ∧
    (schemaErrors v = [] → ∀ m, v = .obj m →
      (validate v).errors = businessRuleErrors (extractManifest m)) := by
  cases hse : schemaErrors v with
  | nil =>
    refine ⟨?_, fun h => absurd rfl h, ?_⟩
    · cases v with
      | notObject => simp [schemaErrors] at hse
      | obj m =>
        have hval : validate (RawValue.obj m) =
            { valid := (businessRuleErrors (extractManifest m)).isEmpty
              errors := businessRuleErrors (extractManifest m) } := by
          rw [validate.eq_def, hse]
        rw [hval]
        simp only [manifestRulesB, Bool.and_eq_true]
        constructor
        · intro h
          refine ⟨(schemaErrors_eq_nil _).mp hse, ?_⟩
          rw [List.isEmpty_iff] at h
          exact (businessRuleErrors_eq_nil _).mp h
        · rintro ⟨-, hb⟩
          rw [List.isEmpty_iff]
          exact (businessRuleErrors_eq_nil _).mpr hb
    · intro _ m' hm
      subst hm
      have hval : validate (RawValue.obj m') =
          { valid := (businessRuleErrors (extractManifest m')).isEmpty
            errors := businessRuleErrors (extractManifest m') } := by
        rw [validate.eq_def, hse]
      rw [hval]
  | cons e es =>
    have hval : validate v = { valid := false, errors := e :: es } := by
      rw [validate.eq_def, hse]
    refine ⟨?_, ?_, ?_⟩
    · rw [hval]
      simp only
      constructor
      · intro h
        simp at h
      · intro h
        simp only [manifestRulesB, Bool.and_eq_true] at h
        have h2 := (schemaErrors_eq_nil v).mpr h.1
        rw [h2] at hse
        simp at hse
    · intro _
      rw [hval]
    · intro h
      exact absurd h (by simp)

/-- C6 amended witness: for the well-formed `mHello` manifest every rule holds, the
result is valid, and the reported list is the (empty) business-rule list. -/
theorem c6_amended_witness :
    (validate mHello.toRaw).valid = true ∧
    manifestRulesB mHello.toRaw = true ∧
    (validate mHello.toRaw).errors = businessRuleErrors (extractManifest mHelloRawM) := by
  refine ⟨(c6_amended mHello.toRaw).1.mpr (by decide), by decide, ?_⟩
  exact (c6_amended mHello.toRaw).2.2 (by decide) mHelloRawM (by decide)

theorem sep_split_unique (sep : Char) (xs ys as bs : List Char)
    (hx : ∀ c ∈ xs, c ≠ sep) (ha : ∀ c ∈ as, c ≠ sep)
    (h : xs ++ sep :: ys = as ++ sep :: bs) : xs = as ∧ ys = bs := by
  induction xs generalizing as with
  | nil =>
    cases as with
    | nil => simpa using h
    | cons a as' =>
      simp only [List.nil_append, List.cons_append, List.cons.injEq] at h
      exact absurd h.1.symm (ha a (List.mem_cons_self a as'))
  | cons x xs' ih =>
    cases as with
    | nil =>
      simp only [List.cons_append, List.nil_append, List.cons.injEq] at h
      exact absurd h.1 (hx x (List.mem_cons_self x xs'))
    | cons a as' =>
      simp only [List.cons_append, List.cons.injEq] at h
      have := ih as' (fun c hc => hx c (List.mem_cons_of_mem x hc))
        (fun c hc => ha c (List.mem_cons_of_mem a hc)) h.2
      exact ⟨by rw [h.1, this.1], this.2⟩

theorem tenantStateKey_data (t m : String) :
    (tenantStateKey t m).data = t.data ++ ':' :: m.data := by
  show (t ++ ":" ++ m).data = t.data ++ ':' :: m.data
  rw [String.data_append, String.data_append]
  simp

theorem tenantStateKey_inj {t t' m m' : String}
    (hm : colonFree m = true) (hm' : colonFree m' = true)
    (h : tenantStateKey t m = tenantStateKey t' m') : t = t' ∧ m = m' := by
  have hd : t.data ++ ':' :: m.data = t'.data ++ ':' :: m'.data := by
    have := congrArg String.data h
    rwa [tenantStateKey_data, tenantStateKey_data] at this
  have hrev : m.data.reverse ++ ':' :: t.data.reverse =
      m'.data.reverse ++ ':' :: t'.data.reverse := by
    have := congrArg List.reverse hd
    simpa [List.reverse_append] using this
  have hmf : ∀ c ∈ m.data.reverse, c ≠ ':' := by
    intro c hc
    rw [List.mem_reverse] at hc
    simp only [colonFree, List.all_eq_true] at hm
    simpa using hm c hc
  have hmf' : ∀ c ∈ m'.data.reverse, c ≠ ':' := by
    intro c hc
    rw [List.mem_reverse] at hc
    simp only [colonFree, List.all_eq_true] at hm'
    simpa using hm' c hc
  obtain ⟨h1, h2⟩ := sep_split_unique ':' _ _ _ _ hmf hmf' hrev
  have hmm : m.data = m'.data := by
    have := congrArg List.reverse h1
    simpa using this
  have htt : t.data = t'.data := by
    have := congrArg List.reverse h2
    simpa using this
  exact ⟨congrArg String.mk htt, congrArg String.mk hmm⟩

theorem alookup_some_mem {α : Type} {k : String} {l : List (String × α)} {v : α}
    (h : alookup k l = some v) : (k, v) ∈ l := by
  induction l with
  | nil => cases h
  | cons p rest ih =>
    obtain ⟨k0, v0⟩ := p
    by_cases hk : k0 = k
    · subst hk
      simp only [alookup, beq_self_eq_true, if_true, Option.some.injEq] at h
      subst h
      exact List.mem_cons_self _ _
    · have hbeq : (k0 == k) = false := by simpa using hk
      simp only [alookup, hbeq, Bool.false_eq_true, if_false] at h
      exact List.mem_cons_of_mem _ (ih h)

theorem enable_ok_inversion {st : Storage} {t m : String} {now : Nat}
    {ts : TenantModuleState} {st' : Storage}
    (h : enableModule st t m now = .ok (ts, st')) :
    ∃ r, st.getModule m = some r ∧ stEnabled (st.getTenantState t m) = false ∧
      missingDepsOf st t r = [] ∧ ts = ⟨t, m, true, now⟩ ∧
      st' = st.saveTenantState ⟨t, m, true, now⟩ := by
  unfold enableModule at h
  cases hg : st.getModule m with
  | none => rw [hg] at h; cases h
  | some r =>
    rw [hg] at h
    cases he : stEnabled (st.getTenantState t m) with
    | true => rw [he] at h; simp at h
    | false =>
      rw [he] at h
      simp only [Bool.false_eq_true, if_false] at h
      cases hm : (missingDepsOf st t r).isEmpty with
      | false =>
        rw [show ((r.dependencies.filter (fun d =>
            !d.optional && !stEnabled (st.getTenantState t d.moduleId))).map
            (·.moduleId)).isEmpty = false from hm] at h
        simp at h
      | true =>
        rw [show ((r.dependencies.filter (fun d =>
            !d.optional && !stEnabled (st.getTenantState t d.moduleId))).map
            (·.moduleId)).isEmpty = true from hm] at h
        simp only [if_true] at h
        refine ⟨r, rfl, rfl, ?_, ?_, ?_⟩
        · rw [← List.isEmpty_iff]
          exact hm
        · exact (Prod.mk.injEq _ _ _ _ ▸ (Except.ok.injEq _ _ ▸ h)).1.symm
        · exact (Prod.mk.injEq _ _ _ _ ▸ (Except.ok.injEq _ _ ▸ h)).2.symm

theorem disable_ok_inversion {st : Storage} {t m : String} {now : Nat}
    {ts : TenantModuleState} {st' : Storage}
    (h : disableModule st t m now = .ok (ts, st')) :
    ∃ r, st.getModule m = some r ∧ stEnabled (st.getTenantState t m) = true ∧
      enabledDependentsOf st t m = [] ∧ ts = ⟨t, m, false, now⟩ ∧
      st' = st.saveTenantState ⟨t, m, false, now⟩ := by
  unfold disableModule at h
  cases hg : st.getModule m with
  | none => rw [hg] at h; cases h
  | some r =>
    rw [hg] at h
    cases he : stEnabled (st.getTenantState t m) with
    | false => rw [he] at h; simp at h
    | true =>
      rw [he] at h
      simp only [Bool.not_true, Bool.false_eq_true, if_false] at h
      cases hm : (enabledDependentsOf st t m).isEmpty with
      | false =>
        rw [show ((st.getAllModules.filter (fun other =>
            other.moduleId != m &&
            other.dependencies.any (fun d => d.moduleId == m && !d.optional) &&
            stEnabled (st.getTenantState t other.moduleId))).map
            (·.moduleId)).isEmpty = false from hm] at h
        simp at h
      | true =>
        rw [show ((st.getAllModules.filter (fun other =>
            other.moduleId != m &&
            other.dependencies.any (fun d => d.moduleId == m && !d.optional) &&
            stEnabled (st.getTenantState t other.moduleId))).map
            (·.moduleId)).isEmpty = true from hm] at h
        simp only [if_true] at h
        refine ⟨r, rfl, rfl, ?_, ?_, ?_⟩
        · rw [← List.isEmpty_iff]
          exact hm
        · exact (Prod.mk.injEq _ _ _ _ ▸ (Except.ok.injEq _ _ ▸ h)).1.symm
        · exact (Prod.mk.injEq _ _ _ _ ▸ (Except.ok.injEq _ _ ▸ h)).2.symm

theorem missingDeps_nil_all {st : Storage} {t : String} {r : RegisteredModule}
    (h : missingDepsOf st t r = []) :
    ∀ d ∈ r.dependencies, d.optional = false →
      stEnabled (st.getTenantState t d.moduleId) = true := by
  intro d hd hopt
  simp only [missingDepsOf, List.map_eq_nil_iff, List.filter_eq_nil_iff] at h
  have := h d hd
  simp only [hopt, Bool.not_false, Bool.true_and, Bool.not_eq_true',
    Bool.not_eq_true] at this
  simpa using this

theorem enabledDependents_nil {st : Storage} {t m : String}
    (h : enabledDependentsOf st t m = []) :
    ∀ other ∈ st.getAllModules, other.moduleId ≠ m →
      (∃ dep ∈ other.dependencies, dep.moduleId = m ∧ dep.optional = false) →
      stEnabled (st.getTenantState t other.moduleId) = false := by
  intro other hmem hne hdep
  simp only [enabledDependentsOf, List.map_eq_nil_iff, List.filter_eq_nil_iff] at h
  have := h other hmem
  obtain ⟨dep, hdmem, hdid, hdopt⟩ := hdep
  rw [Bool.and_eq_true, Bool.and_eq_true] at this
  push_neg at this
  have hany : other.dependencies.any (fun d => d.moduleId == m && !d.optional) = true := by
    rw [List.any_eq_true]
    exact ⟨dep, hdmem, by simp [hdid, hdopt]⟩
  have := this ⟨by simpa using hne, hany⟩
  simpa using this

theorem depinv_enable {st : Storage} {t m : String} {now : Nat}
    {ts : TenantModuleState} {st' : Storage} (hwf : StoreWF st) (hinv : DepInv st)
    (h : enableModule st t m now = .ok (ts, st')) : DepInv st' := by
  obtain ⟨r, hg, -, hmiss, -, hst'⟩ := enable_ok_inversion h
  subst hst'
  have hcfm : colonFree m = true := (hwf.2 _ (alookup_some_mem hg)).2.1
  intro t₀ m₀ r₀ hg₀ hen₀ d hd hopt
  have hg₀' : st.getModule m₀ = some r₀ := hg₀
  have hmem₀ := alookup_some_mem hg₀'
  have hcfm₀ : colonFree m₀ = true := (hwf.2 _ hmem₀).2.1
  have hcfd : colonFree d.moduleId = true := (hwf.2 _ hmem₀).2.2 d hd
  have henNew : ∀ t₁ x, tenantStateKey t₁ x = tenantStateKey t m →
      isEnabled (st.saveTenantState ⟨t, m, true, now⟩) t₁ x = true := by
    intro t₁ x hkey
    simp only [isEnabled, Storage.getTenantState, Storage.saveTenantState]
    rw [hkey, alookup_aset_self]
    rfl
  by_cases hkm : tenantStateKey t₀ m₀ = tenantStateKey t m
  · obtain ⟨ht, hm⟩ := tenantStateKey_inj hcfm₀ hcfm hkm
    subst ht
    subst hm
    have hr : r₀ = r := by
      rw [hg] at hg₀'
      exact (Option.some.inj hg₀').symm
    subst hr
    have hdep := missingDeps_nil_all hmiss d hd hopt
    by_cases hkey : tenantStateKey t₀ d.moduleId = tenantStateKey t₀ m₀
    · exact henNew t₀ d.moduleId hkey
    · simp only [isEnabled, Storage.getTenantState, Storage.saveTenantState]
      rw [alookup_aset_ne hkey]
      exact hdep
  · have hen₀' : isEnabled st t₀ m₀ = true := by
      simp only [isEnabled, Storage.getTenantState, Storage.saveTenantState] at hen₀
      rwa [alookup_aset_ne hkm] at hen₀
    have hdep := hinv t₀ m₀ r₀ hg₀' hen₀' d hd hopt
    by_cases hkey : tenantStateKey t₀ d.moduleId = tenantStateKey t m
    · exact henNew t₀ d.moduleId hkey
    · simp only [isEnabled, Storage.getTenantState, Storage.saveTenantState]
      rw [alookup_aset_ne hkey]
      exact hdep

theorem depinv_disable {st : Storage} {t m : String} {now : Nat}
    {ts : TenantModuleState} {st' : Storage} (hwf : StoreWF st) (hinv : DepInv st)
    (h : disableModule st t m now = .ok (ts, st')) : DepInv st' := by
  obtain ⟨r, hg, -, hdeps, -, hst'⟩ := disable_ok_inversion h
  subst hst'
  have hcfm : colonFree m = true := (hwf.2 _ (alookup_some_mem hg)).2.1
  intro t₀ m₀ r₀ hg₀ hen₀ d hd hopt
  have hg₀' : st.getModule m₀ = some r₀ := hg₀
  have hmem₀ := alookup_some_mem hg₀'
  have hcfm₀ : colonFree m₀ = true := (hwf.2 _ hmem₀).2.1
  have hcfd : colonFree d.moduleId = true := (hwf.2 _ hmem₀).2.2 d hd
  by_cases hkm : tenantStateKey t₀ m₀ = tenantStateKey t m
  · exfalso
    simp only [isEnabled, Storage.getTenantState, Storage.saveTenantState] at hen₀
    rw [hkm, alookup_aset_self] at hen₀
    simp [stEnabled] at hen₀
  · have hen₀' : isEnabled st t₀ m₀ = true := by
      simp only [isEnabled, Storage.getTenantState, Storage.saveTenantState] at hen₀
      rwa [alookup_aset_ne hkm] at hen₀
    have hdep := hinv t₀ m₀ r₀ hg₀' hen₀' d hd hopt
    by_cases hkey : tenantStateKey t₀ d.moduleId = tenantStateKey t m
    · exfalso
      obtain ⟨ht, hdm⟩ := tenantStateKey_inj hcfd hcfm hkey
      subst ht
      have hm₀ne : m₀ ≠ m := fun hmm => hkm (by rw [hmm])
      have hfst : m₀ = r₀.moduleId := (hwf.2 _ hmem₀).1
      have hmm : r₀ ∈ st.getAllModules := List.mem_map_of_mem _ hmem₀
      have hscan := enabledDependents_nil hdeps r₀ hmm
        (by rw [← hfst]; exact hm₀ne) ⟨d, hd, by rw [hdm], hopt⟩
      rw [← hfst] at hscan
      rw [show isEnabled st t₀ m₀ = stEnabled (st.getTenantState t₀ m₀) from rfl] at hen₀'
      rw [hscan] at hen₀'
      cases hen₀'
    · simp only [isEnabled, Storage.getTenantState, Storage.saveTenantState]
      rw [alookup_aset_ne hkey]
      exact hdep

theorem mem_adel {α : Type} {p : String × α} {k : String} {l : List (String × α)}
    (h : p ∈ adel k l) : p ∈ l := by
  induction l with
  | nil => cases h
  | cons q rest ih =>
    obtain ⟨k0, v0⟩ := q
    simp only [adel] at h
    by_cases hk : (k0 == k) = true
    · rw [if_pos hk] at h
      exact List.mem_cons_of_mem _ h
    · rw [if_neg hk] at h
      rcases List.mem_cons.mp h with h1 | h2
      · exact h1 ▸ List.mem_cons_self _ _
      · exact List.mem_cons_of_mem _ (ih h2)

theorem storewf_unreg {s : RegistryState} (hwf : StoreWF s.storage) (mid : String) :
    StoreWF (unregisterModule s mid).2.storage := by
  unfold unregisterModule
  cases hg : s.storage.getModule mid with
  | none => exact hwf
  | some r =>
    constructor
    · exact (adel_keys_sublist mid s.storage.modules).nodup hwf.1
    · intro p hp
      exact hwf.2 p (mem_adel hp)

theorem depinv_unreg {s : RegistryState} (hwf : StoreWF s.storage)
    (hinv : DepInv s.storage) (mid : String) :
    DepInv (unregisterModule s mid).2.storage := by
  unfold unregisterModule
  cases hg : s.storage.getModule mid with
  | none => exact hinv
  | some r =>
    intro t₀ m₀ r₀ hg₀ hen₀ d hd hopt
    simp only [Storage.getModule, Storage.deleteModule] at hg₀
    by_cases hm : m₀ = mid
    · subst hm
      rw [alookup_adel_self hwf.1] at hg₀
      cases hg₀
    · rw [alookup_adel_ne hm] at hg₀
      exact hinv t₀ m₀ r₀ hg₀ hen₀ d hd hopt

theorem reachableTD_wf_inv {s : RegistryState} (h : ReachableTD s) :
    StoreWF s.storage ∧ DepInv s.storage := by
  induction h with
  | init s hwf hts =>
    refine ⟨hwf, ?_⟩
    intro t m r hg hen d hd hopt
    simp only [isEnabled, Storage.getTenantState, hts, alookup, stEnabled] at hen
    exact absurd hen (by decide)
  | enable s t m now ts st' hr h ih =>
    obtain ⟨r, hg, -, -, -, hst'⟩ := enable_ok_inversion h
    refine ⟨?_, depinv_enable ih.1 ih.2 h⟩
    subst hst'
    exact ih.1
  | disable s t m now ts st' hr h ih =>
    obtain ⟨r, hg, -, -, -, hst'⟩ := disable_ok_inversion h
    refine ⟨?_, depinv_disable ih.1 ih.2 h⟩
    subst hst'
    exact ih.1
  | unreg s mid hr ih =>
    exact ⟨storewf_unreg ih.1 mid, depinv_unreg ih.1 ih.2 mid⟩

/-- C2: in every state reachable by `enableModule`, `disableModule` and
`unregisterModule` from a well-formed registered store with no tenant state, if the
tenant state for (T, M) of a registered module M is enabled then the tenant state
for (T, D) of every non-optional declared dependency D of M is enabled too.
(Registration is not among the claim's operations; re-registering a module after an
unregister that left stale enabled tenant state would violate the invariant.) -/
theorem c2_dep_invariant (s : RegistryState) (h : ReachableTD s) :
    DepInv s.storage :=
  (reachableTD_wf_inv h).2

/-- C2 witness: the invariant holds at the concrete state reached by registering
`mHello` and enabling it for tenant `"demo"`. -/
theorem c2_dep_invariant_witness : DepInv sHelloDemo := by
  have h0 : ReachableTD sHelloR := .init sHelloR (by
    constructor
    · decide
    · intro p hp
      fin_cases hp <;> refine ⟨by decide, by decide, ?_⟩ <;> intro d hd <;>
        fin_cases hd) (by decide)
  have h1 : ReachableTD { sHelloR with storage := sHelloDemo } :=
    .enable sHelloR "demo" "webwaka-core-hello" 7 ⟨"demo", "webwaka-core-hello", true, 7⟩
      sHelloDemo h0 rfl
  exact c2_dep_invariant _ h1

theorem not_mem_of_alookup_eq_none {α : Type} {k : String} {l : List (String × α)}
    (h : alookup k l = none) : k ∉ l.map Prod.fst := by
  induction l with
  | nil => simp
  | cons p rest ih =>
    obtain ⟨k0, v0⟩ := p
    by_cases hk : (k0 == k) = true
    · simp only [alookup, hk, if_true] at h
      cases h
    · simp only [alookup, hk, Bool.false_eq_true, if_false] at h
      simp only [List.map_cons, List.mem_cons]
      push_neg
      exact ⟨fun hh => by simp [hh] at hk, ih h⟩

theorem mem_keys_of_alookup_isSome {α : Type} {k : String} {l : List (String × α)}
    (h : (alookup k l).isSome = true) : k ∈ l.map Prod.fst := by
  cases hl : alookup k l with
  | none => rw [hl] at h; cases h
  | some v => exact List.mem_map_of_mem Prod.fst (alookup_some_mem hl)

theorem aset_not_mem_append {α : Type} (k : String) (v : α) (l : List (String × α))
    (h : k ∉ l.map Prod.fst) : aset k v l = l ++ [(k, v)] := by
  induction l with
  | nil => rfl
  | cons p rest ih =>
    obtain ⟨k0, v0⟩ := p
    simp only [List.map_cons, List.mem_cons] at h
    push_neg at h
    have hk : (k0 == k) = false := by simpa using fun hh => h.1 hh.symm
    simp only [aset, hk, Bool.false_eq_true, if_false, List.cons_append,
      List.cons.injEq, true_and]
    exact ih h.2

theorem register_ok_inversion {s : RegistryState} {m : Manifest} {now : Nat}
    {r : RegisteredModule} {s' : RegistryState}
    (h : registerModule s m now = .ok (r, s')) :
    s.storage.getModule m.moduleId = none ∧
    r = { toManifest := m, registeredAt := now } ∧
    s'.storage = s.storage.saveModule { toManifest := m, registeredAt := now } := by
  simp only [registerModule] at h
  cases hv : (validateManifest m).valid with
  | false => rw [hv] at h; simp at h
  | true =>
    rw [hv] at h
    simp only [Bool.not_true, Bool.false_eq_true, if_false] at h
    cases hg : s.storage.getModule m.moduleId with
    | some q => rw [hg] at h; simp at h
    | none =>
      rw [hg] at h
      cases hc : (checkForDuplicates s.resolver m.capabilities none).isEmpty with
      | false => rw [hc] at h; simp at h
      | true =>
        rw [hc] at h
        simp only [Bool.not_true, Bool.false_eq_true, if_false] at h
        cases hf : m.dependencies.find? (fun d => !isValidModuleId d.moduleId) with
        | some d => rw [hf] at h; simp at h
        | none =>
          rw [hf] at h
          cases hcc : checkCircularDependencies s.storage m with
          | some p => rw [hcc] at h; simp at h
          | none =>
            rw [hcc] at h
            cases hrc : registerCapabilities s.resolver
                { toManifest := m, registeredAt := now } with
            | error e => rw [hrc] at h; simp at h
            | ok r' =>
              rw [hrc] at h
              simp only [Except.ok.injEq, Prod.mk.injEq] at h
              exact ⟨rfl, h.1.symm, by rw [← h.2]⟩

theorem rankedStore_step {s : RegistryState} {m : Manifest} {now : Nat}
    {r : RegisteredModule} {s' : RegistryState}
    (hrank : RankedStore s.storage.modules)
    (h : registerModule s m now = .ok (r, s'))
    (hdeps : ∀ d ∈ m.dependencies, (s.storage.getModule d.moduleId).isSome = true) :
    RankedStore s'.storage.modules := by
  obtain ⟨hnone, -, hstore⟩ := register_ok_inversion h
  obtain ⟨rank, n, hbound, hclosed, hlt⟩ := hrank
  have hnotmem : m.moduleId ∉ s.storage.modules.map Prod.fst :=
    not_mem_of_alookup_eq_none hnone
  have happ : s'.storage.modules =
      s.storage.modules ++ [(m.moduleId, { toManifest := m, registeredAt := now })] := by
    rw [hstore]
    exact aset_not_mem_append _ _ _ hnotmem
  refine ⟨fun k => if k = m.moduleId then n else rank k, n + 1, ?_, ?_, ?_⟩
  · intro k hk
    by_cases hkm : k = m.moduleId
    · simp [hkm]
    · rw [happ, List.map_append, List.mem_append] at hk
      simp [hkm]
      rcases hk with hk | hk
      · exact Nat.lt_succ_of_lt (hbound k hk)
      · simp at hk
        exact absurd hk hkm
  · intro p hp d hd
    rw [happ, List.mem_append] at hp
    rw [happ, List.map_append, List.mem_append]
    rcases hp with hp | hp
    · exact Or.inl (hclosed p hp d hd)
    · simp only [List.mem_singleton] at hp
      subst hp
      exact Or.inl (mem_keys_of_alookup_isSome (hdeps d hd))
  · intro p hp d hd
    rw [happ, List.mem_append] at hp
    rcases hp with hp | hp
    · have hdm : d.moduleId ∈ s.storage.modules.map Prod.fst := hclosed p hp d hd
      have hp1 : p.1 ∈ s.storage.modules.map Prod.fst := List.mem_map_of_mem Prod.fst hp
      have hd1 : d.moduleId ≠ m.moduleId := fun hh => hnotmem (hh ▸ hdm)
      have hp2 : p.1 ≠ m.moduleId := fun hh => hnotmem (hh ▸ hp1)
      simp only [hd1, hp2, if_false]
      exact hlt p hp d hd
    · simp only [List.mem_singleton] at hp
      subst hp
      have hdm : d.moduleId ∈ s.storage.modules.map Prod.fst :=
        mem_keys_of_alookup_isSome (hdeps d hd)
      have hd1 : d.moduleId ≠ m.moduleId := fun hh => hnotmem (hh ▸ hdm)
      simp only [hd1, if_false, if_pos rfl]
      exact hbound _ hdm

theorem regOnly_ranked {s : RegistryState} (h : RegOnlyReach s) :
    RankedStore s.storage.modules := by
  induction h with
  | init =>
    exact ⟨fun _ => 0, 1, by simp [emptyRegistry], by simp [emptyRegistry],
      by simp [emptyRegistry]⟩
  | step s m now r s' hr hreg hdeps ih => exact rankedStore_step ih hreg hdeps

theorem restrictedDepEdge_rank {st : Storage} {rank : String → Nat}
    (hclosed : ∀ p ∈ st.modules, ∀ d ∈ p.2.dependencies,
      d.moduleId ∈ st.modules.map Prod.fst)
    (hlt : ∀ p ∈ st.modules, ∀ d ∈ p.2.dependencies, rank d.moduleId < rank p.1)
    {a b : String} (h : restrictedDepEdge st a b = true) : rank b < rank a := by
  simp only [restrictedDepEdge, Bool.and_eq_true] at h
  obtain ⟨h1, -⟩ := h
  cases hl : alookup a st.modules with
  | none => rw [hl] at h1; cases h1
  | some r =>
    rw [hl] at h1
    rw [List.any_eq_true] at h1
    obtain ⟨d, hd, hdb⟩ := h1
    have hb : d.moduleId = b := by simpa using hdb
    have := hlt (a, r) (alookup_some_mem hl) d hd
    rwa [hb] at this

theorem depChain_rank {st : Storage} {rank : String → Nat}
    (hE : ∀ a b, restrictedDepEdge st a b = true → rank b < rank a) :
    ∀ zs a b, depChainB st (a :: zs ++ [b]) = true → rank b < rank a := by
  intro zs
  induction zs with
  | nil =>
    intro a b h
    simp only [List.nil_append, depChainB, Bool.and_eq_true] at h
    exact hE a b h.1
  | cons y zs' ih =>
    intro a b h
    simp only [List.cons_append, depChainB, Bool.and_eq_true] at h
    exact Nat.lt_trans (ih y b h.2) (hE a y h.1)

/-- C1 amended: for sequences of successful `registerModule` calls (no
unregistration) in which every declared dependency target of each candidate is
already registered at its registration time, the registered dependency graph —
restricted to edges with registered targets — contains no cycle.  (This is exactly
what the counterexample forces: with a dependency target that registers later, or
with unregistration interleaved, the cycle check cannot see the closing edge.) -/
theorem c1_amended (s : RegistryState) (h : RegOnlyReach s) :
    ¬ HasDepCycle s.storage := by
  obtain ⟨rank, n, -, hclosed, hlt⟩ := regOnly_ranked h
  rintro ⟨l, hcyc⟩
  cases l with
  | nil => simp [isDepCycleList] at hcyc
  | cons x rest =>
    simp only [isDepCycleList] at hcyc
    have := depChain_rank
      (fun a b hab => restrictedDepEdge_rank hclosed hlt hab) rest x x hcyc
    exact Nat.lt_irrefl _ this

/-- C1 amended witness: the concrete two-step registration `mHello` then `mDep`
(whose dependency target is already present) yields an acyclic store. -/
theorem c1_amended_witness : ¬ HasDepCycle sDep.storage := by
  have h1 : RegOnlyReach sHelloR :=
    .step emptyRegistry mHello 0 rHello sHelloR .init rfl
      (by intro d hd; simp [mHello] at hd)
  have h2 : RegOnlyReach sDep :=
    .step sHelloR mDep 1 rDep sDep h1 rfl
      (by intro d hd; simp [mDep] at hd; rw [hd]; decide)
  exact c1_amended sDep h2

theorem checkForDuplicates_nil_no_binding {r : CapResolver} {caps : List Capability}
    (h : checkForDuplicates r caps none = []) :
    ∀ c ∈ caps, alookup c.id r.capabilityMap = none := by
  intro c hc
  simp only [checkForDuplicates, List.map_eq_nil_iff, List.filter_eq_nil_iff] at h
  have := h c hc
  cases hl : alookup c.id r.capabilityMap with
  | none => rfl
  | some q =>
    rw [hl] at this
    obtain ⟨cap, owner⟩ := q
    simp at this

theorem registerCapabilities_ok_of_no_binding {r : CapResolver} {m : RegisteredModule}
    (h : ∀ c ∈ m.capabilities, alookup c.id r.capabilityMap = none) :
    registerCapabilities r m =
      .ok { capabilityMap := m.capabilities.foldl (fun acc c => aset c.id (c, m) acc)
              r.capabilityMap
            moduleCapabilities := aset m.moduleId (m.capabilities.map (·.id))
              r.moduleCapabilities } := by
  have hf : m.capabilities.find? (fun c =>
      match alookup c.id r.capabilityMap with
      | some (_, owner) => owner.moduleId != m.moduleId
      | none => false) = none := by
    rw [List.find?_eq_none]
    intro c hc
    rw [h c hc]
    simp
  unfold registerCapabilities
  rw [hf]

theorem register_circ_iff {s : RegistryState} {m : Manifest} {now : Nat}
    (hvalid : (validateManifest m).valid = true)
    (hnew : s.storage.getModule m.moduleId = none)
    (hnoconf : checkForDuplicates s.resolver m.capabilities none = [])
    (hfmt : ∀ d ∈ m.dependencies, isValidModuleId d.moduleId = true) :
    ∀ p, registerModule s m now = .error (.circularDependency p) ↔
      checkCircularDependencies s.storage m = some p := by
  intro p
  have hfind : m.dependencies.find? (fun d => !isValidModuleId d.moduleId) = none := by
    rw [List.find?_eq_none]
    intro d hd
    simp [hfmt d hd]
  have hce : (checkForDuplicates s.resolver m.capabilities none).isEmpty = true := by
    rw [hnoconf]
    rfl
  simp only [registerModule]
  rw [hvalid, hnew, hce, hfind]
  simp only [Bool.not_true, Bool.false_eq_true, if_false]
  cases hcc : checkCircularDependencies s.storage m with
  | some q =>
    constructor
    · intro h
      simp only [Except.error.injEq, RegErr.circularDependency.injEq] at h
      rw [h]
    · intro h
      simp only [Option.some.injEq] at h
      rw [h]
  | none =>
    rw [registerCapabilities_ok_of_no_binding
      (checkForDuplicates_nil_no_binding hnoconf)]
    constructor
    · intro h
      cases h
    · intro h
      cases h

theorem checkDepsF_eq_none {store : List (String × RegisteredModule)}
    {rec : RegisteredModule → List String → List String → Option (List String)}
    {deps : List ModuleDependency} {visited path : List String}
    (h : checkDepsF store rec deps visited path = none) :
    ∀ d ∈ deps, ∀ dm, alookup d.moduleId store = some dm →
      rec dm visited path = none := by
  induction deps with
  | nil => intro d hd; cases hd
  | cons d₀ rest ih =>
    intro d hd dm hdm
    rcases List.mem_cons.mp hd with rfl | hmem
    · cases hr : rec dm visited path with
      | none => rfl
      | some q =>
        simp only [checkDepsF, hdm, hr] at h
        exact h
    · cases hl : alookup d₀.moduleId store with
      | none =>
        simp only [checkDepsF, hl] at h
        exact ih h d hmem dm hdm
      | some dm₀ =>
        cases hr : rec dm₀ visited path with
        | none =>
          simp only [checkDepsF, hl, hr] at h
          exact ih h d hmem dm hdm
        | some q =>
          simp only [checkDepsF, hl, hr] at h
          exact Option.noConfusion h

theorem checkDepsF_some {store : List (String × RegisteredModule)}
    {rec : RegisteredModule → List String → List String → Option (List String)}
    {deps : List ModuleDependency} {visited path : List String} {p : List String}
    (h : checkDepsF store rec deps visited path = some p) :
    ∃ d ∈ deps, ∃ dm, alookup d.moduleId store = some dm ∧
      rec dm visited path = some p := by
  induction deps with
  | nil => exact Option.noConfusion h
  | cons d₀ rest ih =>
    cases hl : alookup d₀.moduleId store with
    | none =>
      simp only [checkDepsF, hl] at h
      obtain ⟨d, hd, dm, hdm, hr⟩ := ih h
      exact ⟨d, List.mem_cons_of_mem _ hd, dm, hdm, hr⟩
    | some dm₀ =>
      cases hr : rec dm₀ visited path with
      | none =>
        simp only [checkDepsF, hl, hr] at h
        obtain ⟨d, hd, dm, hdm, hr'⟩ := ih h
        exact ⟨d, List.mem_cons_of_mem _ hd, dm, hdm, hr'⟩
      | some q =>
        simp only [checkDepsF, hl, hr] at h
        rw [Option.some.inj h] at hr
        exact ⟨d₀, List.mem_cons_self _ _, dm₀, hl, hr⟩

theorem walkOkB_singleton {st : Storage} {f : RegisteredModule → List String}
    {x : String} (h : (alookup x st.modules).isSome = true) :
    walkOkB st f [x] = true := by
  simp only [walkOkB]
  exact h

theorem walkOkB_cons_cons {st : Storage} {f : RegisteredModule → List String}
    {x : String} {w : List String} {r : RegisteredModule}
    (hx : alookup x st.modules = some r) (hw : w ≠ [])
    (hh : w.head? ∈ (f r).map some) (hwk : walkOkB st f w = true) :
    walkOkB st f (x :: w) = true := by
  cases w with
  | nil => exact absurd rfl hw
  | cons y ys =>
    simp only [walkOkB, hx]
    rw [Bool.and_eq_true]
    refine ⟨?_, hwk⟩
    simp only [List.head?_cons, List.mem_map, Option.some.injEq] at hh
    obtain ⟨t, ht, hty⟩ := hh
    subst hty
    simpa using ht

theorem checkCircF_some_sound {st : Storage}
    (hkeys : ∀ q ∈ st.modules, q.1 = q.2.moduleId) :
    ∀ (fuel : Nat) (id : String) (deps : List ModuleDependency)
      (visited path p : List String),
    checkCircF st.modules fuel id deps visited path = some p →
    (id ∈ visited ∧ p = path ++ [id]) ∨
    (id ∉ visited ∧ ∃ w z, p = (path ++ [id]) ++ w ∧ w ≠ [] ∧
      w.head? ∈ (deps.map (·.moduleId)).map some ∧
      walkOkB st depIdsAll w = true ∧
      w.getLast? = some z ∧ (z ∈ id :: visited ∨ z ∈ w.dropLast)) := by
  intro fuel
  induction fuel with
  | zero => intro id deps visited path p h; exact Option.noConfusion h
  | succ fuel ih =>
    intro id deps visited path p h
    cases hid : visited.contains id with
    | true =>
      simp only [checkCircF, hid, if_true] at h
      exact Or.inl ⟨by simpa using hid, (Option.some.inj h).symm⟩
    | false =>
      simp only [checkCircF, hid, Bool.false_eq_true, if_false] at h
      have hidm : id ∉ visited := by simpa using hid
      refine Or.inr ⟨hidm, ?_⟩
      obtain ⟨d, hd, dm, hdm, hr⟩ := checkDepsF_some h
      have hdid : d.moduleId = dm.moduleId := hkeys _ (alookup_some_mem hdm)
      rcases ih dm.moduleId dm.dependencies (id :: visited) (path ++ [id]) p hr with
        ⟨hin, hp⟩ | ⟨hnin, w', z, hp, hw'ne, hhead, hwk, hlast, hz⟩
      · refine ⟨[dm.moduleId], dm.moduleId, by simpa using hp, by simp, ?_, ?_, by simp, ?_⟩
        · simp only [List.map_map, List.mem_map]
          exact ⟨d, hd, by simp [hdid]⟩
        · exact walkOkB_singleton (by rw [← hdid, hdm]; rfl)
        · rcases List.mem_cons.mp hin with hh | hh
          · exact Or.inl (by simp [hh])
          · exact Or.inl (List.mem_cons_of_mem _ hh)
      · refine ⟨dm.moduleId :: w', z, ?_, by simp, ?_, ?_, ?_, ?_⟩
        · rw [hp]
          simp
        · simp only [List.head?_cons, List.map_map, List.mem_map]
          exact ⟨d, hd, by simp [hdid]⟩
        · refine walkOkB_cons_cons (by rw [← hdid]; exact hdm) hw'ne ?_ hwk
          simpa [depIdsAll] using hhead
        · cases w' with
          | nil => exact absurd rfl hw'ne
          | cons y ys => simpa using hlast
        · rcases hz with hz | hz
          · rcases List.mem_cons.mp hz with hh | hh
            · refine Or.inr ?_
              cases w' with
              | nil => exact absurd rfl hw'ne
              | cons y ys =>
                rw [List.dropLast_cons₂]
                exact hh ▸ List.mem_cons_self _ _
            · exact Or.inl hh
          · refine Or.inr ?_
            cases w' with
            | nil => exact absurd rfl hw'ne
            | cons y ys =>
              rw [List.dropLast_cons₂]
              exact List.mem_cons_of_mem _ hz

theorem filter_imp_sublist {l : List String} {p q : String → Bool}
    (h : ∀ x, q x = true → p x = true) :
    List.Sublist (l.filter q) (l.filter p) := by
  induction l with
  | nil => simp
  | cons a rest ih =>
    cases hq : q a with
    | true =>
      rw [List.filter_cons_of_pos hq, List.filter_cons_of_pos (h a hq)]
      exact ih.cons₂ a
    | false =>
      rw [List.filter_cons_of_neg (by simp [hq])]
      cases hp : p a with
      | true =>
        rw [List.filter_cons_of_pos hp]
        exact ih.cons a
      | false =>
        rw [List.filter_cons_of_neg (by simp [hp])]
        exact ih

theorem filter_length_lt {l : List String} {p q : String → Bool}
    (h : ∀ x, q x = true → p x = true) {k : String} (hk : k ∈ l)
    (hpk : p k = true) (hqk : q k = false) :
    (l.filter q).length < (l.filter p).length := by
  induction l with
  | nil => cases hk
  | cons a rest ih =>
    rcases List.mem_cons.mp hk with rfl | hmem
    · rw [List.filter_cons_of_pos hpk, List.filter_cons_of_neg (by simp [hqk])]
      have := (filter_imp_sublist (l := rest) h).length_le
      simpa using Nat.lt_succ_of_le this
    · cases hq : q a with
      | true =>
        rw [List.filter_cons_of_pos hq, List.filter_cons_of_pos (h a hq)]
        simpa using ih hmem
      | false =>
        rw [List.filter_cons_of_neg (by simp [hq])]
        cases hp : p a with
        | true =>
          rw [List.filter_cons_of_pos hp]
          exact Nat.lt_succ_of_lt (ih hmem)
        | false =>
          rw [List.filter_cons_of_neg (by simp [hp])]
          exact ih hmem

theorem remCount_cons_lt {store : List (String × RegisteredModule)}
    {visited : List String} {k : String} (hk : k ∈ store.map Prod.fst)
    (hnk : k ∉ visited) :
    remCount store (k :: visited) < remCount store visited := by
  refine filter_length_lt ?_ hk ?_ ?_
  · intro x hx
    rw [Bool.not_eq_true'] at hx ⊢
    rw [← Bool.not_eq_true, List.elem_iff] at hx ⊢
    intro hmem
    exact hx (List.mem_cons_of_mem _ hmem)
  · rw [Bool.not_eq_true', ← Bool.not_eq_true, List.elem_iff]
    exact hnk
  · simp [List.elem_iff]

theorem remCount_le_length (store : List (String × RegisteredModule))
    (visited : List String) : remCount store visited ≤ store.length := by
  calc ((store.map Prod.fst).filter _).length
      ≤ (store.map Prod.fst).length := List.length_filter_le _ _
    _ = store.length := List.length_map _ _

theorem checkCircF_none_complete {st : Storage}
    (hkeys : ∀ q ∈ st.modules, q.1 = q.2.moduleId) :
    ∀ (fuel : Nat) (id : String) (deps : List ModuleDependency)
      (visited path : List String),
    checkCircF st.modules fuel id deps visited path = none →
    remCount st.modules (id :: visited) + 1 < fuel →
    ∀ w z, w ≠ [] → w.head? ∈ (deps.map (·.moduleId)).map some →
      walkOkB st depIdsAll w = true → w.getLast? = some z →
      z ∉ id :: visited ∧ z ∉ w.dropLast := by
  intro fuel
  induction fuel with
  | zero =>
    intro id deps visited path h hfuel
    omega
  | succ fuel ih =>
    intro id deps visited path h hfuel w z hwne hhead hwk hlast
    cases hid : visited.contains id with
    | true =>
      simp only [checkCircF, hid, if_true] at h
      exact Option.noConfusion h
    | false =>
      simp only [checkCircF, hid, Bool.false_eq_true, if_false] at h
      have hnone := checkDepsF_eq_none h
      cases w with
      | nil => exact absurd rfl hwne
      | cons x w' =>
        obtain ⟨d, hd, hdx⟩ : ∃ d ∈ deps, d.moduleId = x := by
          rw [List.head?_cons] at hhead
          obtain ⟨t, ht, hts⟩ := List.mem_map.mp hhead
          obtain ⟨d, hd, hdt⟩ := List.mem_map.mp ht
          refine ⟨d, hd, ?_⟩
          rw [hdt]
          exact Option.some.inj hts
        have hxsome : ∃ r, alookup x st.modules = some r := by
          cases w' with
          | nil =>
            simp only [walkOkB] at hwk
            exact Option.isSome_iff_exists.mp hwk
          | cons y ys =>
            cases hl : alookup x st.modules with
            | none =>
              simp only [walkOkB, hl] at hwk
              exact absurd hwk (by simp)
            | some r => exact ⟨r, rfl⟩
        obtain ⟨r, hr⟩ := hxsome
        have hxkey : r.moduleId = x := (hkeys _ (alookup_some_mem hr)).symm
        have hrec : checkCircF st.modules fuel r.moduleId r.dependencies
            (id :: visited) (path ++ [id]) = none :=
          hnone d hd r (by rw [hdx]; exact hr)
        rw [hxkey] at hrec
        have hxnotin : x ∉ id :: visited := by
          intro hxin
          cases fuel with
          | zero => omega
          | succ f' =>
            have hcont : (id :: visited).contains x = true := by
              simpa [List.elem_iff] using hxin
            simp only [checkCircF, hcont, if_true] at hrec
            exact Option.noConfusion hrec
        have hxmem : x ∈ st.modules.map Prod.fst :=
          mem_keys_of_alookup_isSome (by rw [hr]; rfl)
        cases w' with
        | nil =>
          have hz : z = x := by
            have := hlast
            simp only [List.getLast?_singleton, Option.some.injEq] at this
            exact this.symm
          subst hz
          exact ⟨hxnotin, by simp⟩
        | cons y ys =>
          have hwk' : walkOkB st depIdsAll (y :: ys) = true := by
            simp only [walkOkB, hr, Bool.and_eq_true] at hwk
            exact hwk.2
          have hyhead : (y :: ys).head? ∈ (r.dependencies.map (·.moduleId)).map some := by
            simp only [walkOkB, hr, Bool.and_eq_true] at hwk
            have : y ∈ depIdsAll r := by
              simpa using hwk.1
            simp only [List.head?_cons, List.mem_map]
            exact ⟨y, by simpa [depIdsAll] using this, rfl⟩
          have hfuel' : remCount st.modules (x :: id :: visited) + 1 < fuel := by
            have h1 : remCount st.modules (x :: id :: visited) <
                remCount st.modules (id :: visited) := remCount_cons_lt hxmem hxnotin
            omega
          have hlast' : (y :: ys).getLast? = some z := by
            simpa using hlast
          obtain ⟨hz1, hz2⟩ := ih x r.dependencies (id :: visited) (path ++ [id])
            hrec hfuel' (y :: ys) z (by simp) hyhead hwk' hlast'
          refine ⟨fun hmem => hz1 (List.mem_cons_of_mem _ hmem), ?_⟩
          rw [List.dropLast_cons₂]
          intro hmem
          rcases List.mem_cons.mp hmem with rfl | hmem'
          · exact hz1 (List.mem_cons_self _ _)
          · exact hz2 hmem'

/-- C8 amended: under the conditions in which the earlier registration stages pass
(valid manifest, id not yet registered, no capability conflict, well-formed
dependency ids, store keyed by record ids), `registerModule` fails with
CIRCULAR_DEPENDENCY exactly when the path-tracked walk over *all* declared
dependency edges (optional ones included) through already-registered modules
revisits an id already on the current path; and the reported path is the candidate
id followed by such a walk in traversal order, ending back at the repeated id. -/
theorem c8_amended (s : RegistryState) (m : Manifest) (now : Nat)
    (hkeys : ∀ q ∈ s.storage.modules, q.1 = q.2.moduleId)
    (hvalid : (validateManifest m).valid = true)
    (hnew : s.storage.getModule m.moduleId = none)
    (hnoconf : checkForDuplicates s.resolver m.capabilities none = [])
    (hfmt : ∀ d ∈ m.dependencies, isValidModuleId d.moduleId = true) :
    ((∃ p, registerModule s m now = .error (.circularDependency p)) ↔
      CandCycleWalk s.storage m depIdsAll (m.dependencies.map (·.moduleId))) ∧
    (∀ p, registerModule s m now = .error (.circularDependency p) →
      ∃ w z, p = m.moduleId :: w ∧ w ≠ [] ∧
        w.head? ∈ (m.dependencies.map (·.moduleId)).map some ∧
        walkOkB s.storage depIdsAll w = true ∧
        w.getLast? = some z ∧ z ∈ m.moduleId :: w.dropLast) := by
  have hsound : ∀ p, registerModule s m now = .error (.circularDependency p) →
      ∃ w z, p = m.moduleId :: w ∧ w ≠ [] ∧
        w.head? ∈ (m.dependencies.map (·.moduleId)).map some ∧
        walkOkB s.storage depIdsAll w = true ∧
        w.getLast? = some z ∧ z ∈ m.moduleId :: w.dropLast := by
    intro p hp
    have hcc := (register_circ_iff hvalid hnew hnoconf hfmt p).mp hp
    rw [checkCircularDependencies] at hcc
    rcases checkCircF_some_sound hkeys _ _ _ _ _ _ hcc with ⟨hin, -⟩ |
      ⟨-, w, z, hp', hwne, hhead, hwk, hlast, hz⟩
    · cases hin
    · refine ⟨w, z, by simpa using hp', hwne, hhead, hwk, hlast, ?_⟩
      rcases hz with hz | hz
      · rcases List.mem_cons.mp hz with rfl | hz'
        · exact List.mem_cons_self _ _
        · cases hz'
      · exact List.mem_cons_of_mem _ hz
  refine ⟨⟨?_, ?_⟩, hsound⟩
  · rintro ⟨p, hp⟩
    obtain ⟨w, z, -, hwne, hhead, hwk, hlast, hz⟩ := hsound p hp
    exact ⟨w, hwne, hhead, hwk, z, hlast, hz⟩
  · intro hwalk
    cases hcc : checkCircularDependencies s.storage m with
    | some q => exact ⟨q, (register_circ_iff hvalid hnew hnoconf hfmt q).mpr hcc⟩
    | none =>
      exfalso
      obtain ⟨w, hwne, hhead, hwk, z, hlast, hz⟩ := hwalk
      rw [checkCircularDependencies] at hcc
      have hfuel : remCount s.storage.modules (m.moduleId :: []) + 1 <
          s.storage.modules.length + 2 := by
        have := remCount_le_length s.storage.modules (m.moduleId :: [])
        omega
      obtain ⟨hz1, hz2⟩ := checkCircF_none_complete hkeys _ _ _ _ _ hcc hfuel
        w z hwne hhead hwk hlast
      rcases List.mem_cons.mp hz with rfl | hz'
      · exact hz1 (List.mem_cons_self _ _)
      · exact hz2 hz'

/-- C8 amended witness: at the concrete state holding the registered cycle a → b → a,
the candidate `mC` (one optional dependency on a) makes `registerModule` fail with
CIRCULAR_DEPENDENCY, so the all-edges walk predicate holds. -/
theorem c8_amended_witness :
    CandCycleWalk s2AB.storage mC depIdsAll (mC.dependencies.map (·.moduleId)) :=
  (c8_amended s2AB mC 2
    (by intro q hq; fin_cases hq <;> rfl)
    (by decide) (by decide) (by decide)
    (by intro d hd; fin_cases hd <;> decide)).1.mp
    ⟨["webwaka-core-c", "webwaka-core-a", "webwaka-core-b", "webwaka-core-a"], rfl⟩

theorem remCount_cons_le (store : List (String × RegisteredModule))
    (visited : List String) (k : String) :
    remCount store (k :: visited) ≤ remCount store visited := by
  refine (filter_imp_sublist ?_).length_le
  intro x hx
  rw [Bool.not_eq_true'] at hx ⊢
  rw [← Bool.not_eq_true, List.elem_iff] at hx ⊢
  intro hmem
  exact hx (List.mem_cons_of_mem _ hmem)

theorem append_singleton_split {l pre post : List String} {a x : String}
    (h : l ++ [a] = pre ++ x :: post) :
    (post = [] ∧ pre = l ∧ x = a) ∨
    (∃ post', post = post' ++ [a] ∧ l = pre ++ x :: post') := by
  induction l generalizing pre with
  | nil =>
    cases pre with
    | nil =>
      simp only [List.nil_append, List.cons.injEq] at h
      exact Or.inl ⟨h.2.symm, rfl, h.1.symm⟩
    | cons p pre' =>
      simp only [List.nil_append, List.cons_append, List.cons.injEq] at h
      have := h.2
      cases pre' <;> simp at this
  | cons b l' ih =>
    cases pre with
    | nil =>
      simp only [List.cons_append, List.nil_append, List.cons.injEq] at h
      exact Or.inr ⟨l', h.2.symm, by rw [h.1, List.nil_append]⟩
    | cons p pre' =>
      simp only [List.cons_append, List.cons.injEq] at h
      rcases ih h.2 with ⟨hpost, hpre, hx⟩ | ⟨post', hpost, hl2⟩
      · exact Or.inl ⟨hpost, by rw [h.1, hpre], hx⟩
      · exact Or.inr ⟨post', hpost, by rw [h.1, List.cons_append, hl2]⟩

theorem distVisit_main {store : List (String × RegisteredModule)} {R : String → Prop}
    {rank : String → Nat}
    (hrank : ∀ p ∈ store, ∀ x ∈ depIdsNonOpt p.2,
      x ∈ store.map Prod.fst ∧ rank x < rank p.1)
    (hR : ∀ x mod, R x → alookup x store = some mod →
      ∀ y ∈ depIdsNonOpt mod, R y) :
    ∀ fuel : Nat,
      (∀ id st G, remCount store st.1 + 1 < fuel → R id →
        (∀ g ∈ G, id ∈ store.map Prod.fst → rank id < rank g) →
        DVInv store st G →
        DVPost store R st (distVisitOne store fuel id st) G ∧
          id ∈ (distVisitOne store fuel id st).1) ∧
      (∀ wl st G, remCount store st.1 + 1 < fuel →
        (∀ w ∈ wl, R w) →
        (∀ g ∈ G, ∀ w ∈ wl, w ∈ store.map Prod.fst → rank w < rank g) →
        DVInv store st G →
        DVPost store R st (distVisitList (distVisitOne store fuel) wl st) G ∧
          ∀ w ∈ wl, w ∈ (distVisitList (distVisitOne store fuel) wl st).1) := by
  intro fuel
  induction fuel with
  | zero =>
    constructor
    · intro id st G hfuel
      omega
    · intro wl st G hfuel
      omega
  | succ fuel ih =>
    obtain ⟨-, ihList⟩ := ih
    have hOne : ∀ id st G, remCount store st.1 + 1 < fuel + 1 → R id →
        (∀ g ∈ G, id ∈ store.map Prod.fst → rank id < rank g) →
        DVInv store st G →
        DVPost store R st (distVisitOne store (fuel + 1) id st) G ∧
          id ∈ (distVisitOne store (fuel + 1) id st).1 := by
      intro id st G hfuel hRid hGid hInv
      obtain ⟨hI1, hI2, hTopo, hND⟩ := hInv
      cases hv : st.1.contains id with
      | true =>
        have heq : distVisitOne store (fuel + 1) id st = st := by
          simp only [distVisitOne]
          rw [if_pos hv]
        rw [heq]
        exact ⟨⟨fun x hx => hx, ⟨[], by simp, by simp⟩, ⟨hI1, hI2, hTopo, hND⟩,
          le_refl _⟩, by simpa using hv⟩
      | false =>
        have hidnv : id ∉ st.1 := by simpa using hv
        cases hl : alookup id store with
        | none =>
          have heq : distVisitOne store (fuel + 1) id st = (id :: st.1, st.2) := by
            simp only [distVisitOne]
            rw [if_neg (by rw [hv]; simp), hl]
          rw [heq]
          have hidnk : id ∉ store.map Prod.fst := not_mem_of_alookup_eq_none hl
          refine ⟨⟨fun x hx => List.mem_cons_of_mem _ hx, ⟨[], by simp, by simp⟩,
            ⟨?_, ?_, hTopo, hND⟩, remCount_cons_le _ _ _⟩, List.mem_cons_self _ _⟩
          · intro x hxk hxv
            rcases List.mem_cons.mp hxv with rfl | hxv'
            · exact absurd hxk hidnk
            · exact hI1 x hxk hxv'
          · intro x hx
            obtain ⟨h1, h2, h3⟩ := hI2 x hx
            exact ⟨h1, List.mem_cons_of_mem _ h2, h3⟩
        | some mod =>
          have hidk : id ∈ store.map Prod.fst :=
            mem_keys_of_alookup_isSome (by rw [hl]; rfl)
          have hmem := alookup_some_mem hl
          have hfuel' : remCount store (id :: st.1) + 1 < fuel := by
            have := remCount_cons_lt hidk hidnv
            omega
          have hRwl : ∀ w ∈ depIdsNonOpt mod, R w := hR id mod hRid hl
          have hGwl : ∀ g ∈ id :: G, ∀ w ∈ depIdsNonOpt mod,
              w ∈ store.map Prod.fst → rank w < rank g := by
            intro g hg w hw _
            have hwlt : rank w < rank id := (hrank _ hmem w hw).2
            rcases List.mem_cons.mp hg with rfl | hg'
            · exact hwlt
            · exact Nat.lt_trans hwlt (hGid g hg' hidk)
          have hInv' : DVInv store (id :: st.1, st.2) (id :: G) := by
            refine ⟨?_, ?_, hTopo, hND⟩
            · intro x hxk hxv
              rcases List.mem_cons.mp hxv with rfl | hxv'
              · exact Or.inr (List.mem_cons_self _ _)
              · rcases hI1 x hxk hxv' with hc | hc
                · exact Or.inl hc
                · exact Or.inr (List.mem_cons_of_mem _ hc)
            · intro x hx
              obtain ⟨h1, h2, h3⟩ := hI2 x hx
              refine ⟨h1, List.mem_cons_of_mem _ h2, ?_⟩
              intro hxg
              rcases List.mem_cons.mp hxg with rfl | hxg'
              · exact hidnv h2
              · exact h3 hxg'
          obtain ⟨⟨hMonoL, ⟨newL, hnewL, hnewR⟩, ⟨hI1L, hI2L, hTopoL, hNDL⟩, hRCL⟩,
            hAllW⟩ := ihList (depIdsNonOpt mod) (id :: st.1, st.2) (id :: G)
              hfuel' hRwl hGwl hInv'
          have heq : distVisitOne store (fuel + 1) id st =
              ((distVisitList (distVisitOne store fuel) (depIdsNonOpt mod)
                  (id :: st.1, st.2)).1,
               (distVisitList (distVisitOne store fuel) (depIdsNonOpt mod)
                  (id :: st.1, st.2)).2 ++ [id]) := by
            simp only [distVisitOne]
            rw [if_neg (by rw [hv]; simp), hl]
          rw [heq]
          set stL := distVisitList (distVisitOne store fuel) (depIdsNonOpt mod)
            (id :: st.1, st.2) with hstL
          have hidG : id ∉ G := fun hg => absurd (hGid id hg hidk) (Nat.lt_irrefl _)
          have hidstL : id ∈ stL.1 := hMonoL id (List.mem_cons_self _ _)
          have hdepsFin : ∀ y ∈ depIdsNonOpt mod, y ∈ stL.2 := by
            intro y hy
            have hyv : y ∈ stL.1 := hAllW y hy
            have hyk : y ∈ store.map Prod.fst := (hrank _ hmem y hy).1
            rcases hI1L y hyk hyv with hc | hc
            · exact hc
            · exfalso
              have hylt : rank y < rank id := (hrank _ hmem y hy).2
              rcases List.mem_cons.mp hc with rfl | hc'
              · exact Nat.lt_irrefl _ hylt
              · exact Nat.lt_irrefl _ (Nat.lt_trans hylt (hGid y hc' hidk))
          refine ⟨⟨?_, ?_, ⟨?_, ?_, ?_, ?_⟩, ?_⟩, hidstL⟩
          · intro x hx
            exact hMonoL x (List.mem_cons_of_mem _ hx)
          · refine ⟨newL ++ [id], ?_, ?_⟩
            · rw [hnewL, List.append_assoc]
            · intro x hx
              rcases List.mem_append.mp hx with hx' | hx'
              · exact hnewR x hx'
              · rw [List.mem_singleton] at hx'
                exact hx' ▸ hRid
          · intro x hxk hxv
            rcases hI1L x hxk hxv with hc | hc
            · exact Or.inl (List.mem_append_left _ hc)
            · rcases List.mem_cons.mp hc with rfl | hc'
              · exact Or.inl (List.mem_append_right _ (List.mem_singleton.mpr rfl))
              · exact Or.inr hc'
          · intro x hx
            rcases List.mem_append.mp hx with hx' | hx'
            · obtain ⟨h1, h2, h3⟩ := hI2L x hx'
              exact ⟨h1, h2, fun hg => h3 (List.mem_cons_of_mem _ hg)⟩
            · rw [List.mem_singleton] at hx'
              subst hx'
              exact ⟨hidk, hidstL, hidG⟩
          · intro pre x post hsplit mod' hmod' y hy
            rcases append_singleton_split hsplit with ⟨hpost, hpre, hx⟩ |
              ⟨post', hpost, hl2⟩
            · subst hx
              subst hpre
              rw [hl] at hmod'
              exact hdepsFin y (Option.some.inj hmod' ▸ hy)
            · exact hTopoL pre x post' hl2 mod' hmod' y hy
          · have hidnres : id ∉ stL.2 :=
              fun hmm => (hI2L id hmm).2.2 (List.mem_cons_self _ _)
            simp [List.nodup_append, hNDL, hidnres]
          · calc remCount store stL.1 ≤ remCount store (id :: st.1) := hRCL
              _ ≤ remCount store st.1 := remCount_cons_le _ _ _
    refine ⟨hOne, ?_⟩
    intro wl
    induction wl with
    | nil =>
      intro st G hfuel hRwl hGwl hInv
      exact ⟨⟨fun x hx => hx, ⟨[], by simp [distVisitList], by simp⟩, hInv,
        le_refl _⟩, by simp⟩
    | cons id rest ihw =>
      intro st G hfuel hRwl hGwl hInv
      obtain ⟨⟨hM1, ⟨new1, hnew1, hnewR1⟩, hInv1, hRC1⟩, hid1⟩ :=
        hOne id st G hfuel (hRwl id (List.mem_cons_self _ _))
          (fun g hg hk => hGwl g hg id (List.mem_cons_self _ _) hk) hInv
      have hfuel₁ : remCount store (distVisitOne store (fuel + 1) id st).1 + 1 <
          fuel + 1 := by omega
      obtain ⟨⟨hM2, ⟨new2, hnew2, hnewR2⟩, hInv2, hRC2⟩, hAll2⟩ :=
        ihw (distVisitOne store (fuel + 1) id st) G hfuel₁
          (fun w hw => hRwl w (List.mem_cons_of_mem _ hw))
          (fun g hg w hw hk => hGwl g hg w (List.mem_cons_of_mem _ hw) hk) hInv1
      have heq : distVisitList (distVisitOne store (fuel + 1)) (id :: rest) st =
          distVisitList (distVisitOne store (fuel + 1)) rest
            (distVisitOne store (fuel + 1) id st) := rfl
      rw [heq]
      refine ⟨⟨fun x hx => hM2 x (hM1 x hx), ⟨new1 ++ new2, ?_, ?_⟩, hInv2,
        le_trans hRC2 hRC1⟩, ?_⟩
      · rw [hnew2, hnew1, List.append_assoc]
      · intro x hx
        rcases List.mem_append.mp hx with hx' | hx'
        · exact hnewR1 x hx'
        · exact hnewR2 x hx'
      · intro w hw
        rcases List.mem_cons.mp hw with rfl | hw'
        · exact hM2 w hid1
        · exact hAll2 w hw'

/-- C9: for every registered module `root` of a well-formed dist-registry store (the
store discipline `DistStoreWF` that dist registration maintains by refusing
candidates with unregistered non-optional dependencies), `getDependencyOrder root`
lists exactly the transitive non-optional dependency closure of `root` over
registered modules, each module exactly once (the list is duplicate-free), in
topological order (every non-optional dependency of a listed module occurs strictly
earlier), with `root` itself last. -/
theorem c9_dependency_order (store : List (String × RegisteredModule)) (root : String)
    (mod : RegisteredModule) (hwf : DistStoreWF store)
    (hroot : alookup root store = some mod) :
    (∀ x, x ∈ distGetDependencyOrder store root ↔ InClosure store root x) ∧
    (distGetDependencyOrder store root).Nodup ∧
    (distGetDependencyOrder store root).getLast? = some root ∧
    TopoOut store (distGetDependencyOrder store root) := by
  obtain ⟨hkeys, rank, hrank⟩ := hwf
  have hR : ∀ x mod', InClosure store root x → alookup x store = some mod' →
      ∀ y ∈ depIdsNonOpt mod', InClosure store root y :=
    fun x mod' hx hl y hy => InClosure.step hx hl hy
  have hfuel : remCount store ([] : List String) + 1 < store.length + 2 := by
    have := remCount_le_length store ([] : List String)
    omega
  have hInv0 : DVInv store (([] : List String), ([] : List String)) [] := by
    refine ⟨?_, ?_, ?_, ?_⟩
    · intro x _ hx
      cases hx
    · intro x hx
      cases hx
    · intro pre x post hsplit
      exact absurd hsplit.symm (by simp)
    · exact List.nodup_nil
  obtain ⟨⟨hMono, ⟨new, hnew, hnewR⟩, ⟨hI1, hI2, hTopo, hND⟩, -⟩, hrootv⟩ :=
    ((distVisit_main hrank hR (store.length + 2)).1) root ([], []) [] hfuel
      InClosure.base (by intro g hg; cases hg) hInv0
  have hres : distGetDependencyOrder store root =
      (distVisitOne store (store.length + 2) root ([], [])).2 := by
    simp only [distGetDependencyOrder, hroot]
  have hrootk : root ∈ store.map Prod.fst :=
    mem_keys_of_alookup_isSome (by rw [hroot]; rfl)
  have hrootres : root ∈ (distVisitOne store (store.length + 2) root ([], [])).2 := by
    rcases hI1 root hrootk hrootv with hc | hc
    · exact hc
    · cases hc
  refine ⟨?_, by rw [hres]; exact hND, ?_, by rw [hres]; exact hTopo⟩
  · intro x
    rw [hres]
    constructor
    · intro hx
      have : x ∈ ([] : List String) ++ new := by rw [← hnew]; exact hx
      rcases List.mem_append.mp this with hc | hc
      · cases hc
      · exact hnewR x hc
    · intro hx
      induction hx with
      | base => exact hrootres
      | step hx' hl hy ih =>
        obtain ⟨s, t, hst⟩ := List.append_of_mem ih
        have := hTopo s _ t hst _ hl _ hy
        rw [hst]
        exact List.mem_append_left _ this
  · rw [hres]
    have hco : (([] : List String).contains root) = false := rfl
    show (distVisitOne store (store.length + 1 + 1) root ([], [])).2.getLast? =
      some root
    simp only [distVisitOne]
    rw [if_neg (by rw [hco]; simp), hroot]
    simp

/-- C9 witness: on the concrete three-module dist store, the order for `top2` lists
the closure exactly once in topological order with `top2` last. -/
theorem c9_dependency_order_witness :
    (∀ x, x ∈ distGetDependencyOrder distStoreW "webwaka-core-top2" ↔
      InClosure distStoreW "webwaka-core-top2" x) ∧
    (distGetDependencyOrder distStoreW "webwaka-core-top2").Nodup ∧
    (distGetDependencyOrder distStoreW "webwaka-core-top2").getLast? =
      some "webwaka-core-top2" ∧
    TopoOut distStoreW (distGetDependencyOrder distStoreW "webwaka-core-top2") :=
  c9_dependency_order distStoreW "webwaka-core-top2" rDistTop
    ⟨by decide, distRankW, by decide⟩ (by decide)
